import Mathlib

/-!
Verification development for a synthetic relational-data generator.

The Python sources are shallowly embedded: pandas DataFrames become
association-list tables of `Value`s, the global random streams (`random`,
`numpy.random`, `faker`) become an explicit `Oracle` of value streams, and
Python exceptions become `Except String`.  Each definition mirrors one
function of the source tree (`core/constraint_enforcer.py`,
`core/column_generator.py`, `core/fk_manager.py`,
`core/dependency_analyzer.py`, `core/scenario_data_generator.py`,
`core/causal_data_generator.py`, `core/derived_column_evaluator.py`,
`core/temporal_data_generator.py`, `core/post_validator.py`, `main.py`).
-/

namespace SynthDataGen

/-- Decidable equality of `Except` results, for evaluating the embedded
functions on concrete inputs. -/
instance {ε α : Type _} [DecidableEq ε] [DecidableEq α] : DecidableEq (Except ε α) :=
  fun x y =>
    match x, y with
    | Except.ok a, Except.ok b =>
        if h : a = b then Decidable.isTrue (by rw [h])
        else Decidable.isFalse (by simp [h])
    | Except.ok _, Except.error _ => Decidable.isFalse (by simp)
    | Except.error _, Except.ok _ => Decidable.isFalse (by simp)
    | Except.error e, Except.error f =>
        if h : e = f then Decidable.isTrue (by rw [h])
        else Decidable.isFalse (by simp [h])

/-- A cell value.  `null` stands for Python `None` / numpy `NaN`;
floats are modelled as rationals. -/
inductive Value where
  | null : Value
  | int (i : Int) : Value
  | rat (q : ℚ) : Value
  | str (s : String) : Value
  | bool (b : Bool) : Value
deriving DecidableEq

/-- A row is an association list from column names to values, mirroring a
pandas row record. -/
abbrev Row := List (String × Value)

/-- Reading a column of a row; absent keys read as null (rows are kept in
sync with the frame's column list by construction). -/
def Row.get : Row → String → Value
  | [], _ => Value.null
  | (k, v) :: r, c => if k = c then v else Row.get r c

/-- Writing one cell of a row (pandas `df.loc[i, c] = v`). -/
def Row.set : Row → String → Value → Row
  | [], c, v => [(c, v)]
  | (k, w) :: r, c, v => if k = c then (k, v) :: r else (k, w) :: Row.set r c v

/-- A pandas DataFrame: ordered column names plus ordered rows. -/
structure DataFrame where
  cols : List String
  rows : List Row
deriving DecidableEq

/-- Column-name list after `df[c] = ...`: unchanged if present, else
appended. -/
def DataFrame.addCol (df : DataFrame) (c : String) : List String :=
  if c ∈ df.cols then df.cols else df.cols ++ [c]

/-- Index-wise column assignment helper; the value lists supplied by the
generators always have exactly one value per row (padding with null is a
dead branch kept for totality). -/
def setColRows (c : String) : List Row → List Value → List Row
  | [], _ => []
  | r :: rs, [] => Row.set r c Value.null :: setColRows c rs []
  | r :: rs, v :: vs => Row.set r c v :: setColRows c rs vs

/-- `df[c] = vs` — whole-column assignment. -/
def DataFrame.setCol (df : DataFrame) (c : String) (vs : List Value) : DataFrame :=
  ⟨df.addCol c, setColRows c df.rows vs⟩

/-- The values of one column, in row order (`df[c]`). -/
def DataFrame.col (df : DataFrame) (c : String) : List Value :=
  df.rows.map (fun r => Row.get r c)

/-- Row filtering (`df[mask]`). -/
def DataFrame.filterRows (df : DataFrame) (p : Row → Bool) : DataFrame :=
  ⟨df.cols, df.rows.filter p⟩

/-- Order-preserving first-occurrence deduplication with a seen
accumulator. -/
def keepFirstsAux [DecidableEq α] : List α → List α → List α
  | [], _ => []
  | x :: xs, seen =>
      if x ∈ seen then keepFirstsAux xs seen else x :: keepFirstsAux xs (x :: seen)

/-- Order-preserving deduplication, keeping first occurrences. -/
def keepFirsts [DecidableEq α] (xs : List α) : List α := keepFirstsAux xs []

/-- `series.dropna().unique().tolist()`: the distinct non-null values of a
column in first-occurrence order. -/
def distinctNonNull (vs : List Value) : List Value :=
  keepFirsts (vs.filter (fun v => v ≠ Value.null))

/-- `df.drop_duplicates(subset=[c])` kernel: keep each row whose key value
has not been seen before. -/
def dedupRowsAux (c : String) : List Row → List Value → List Row
  | [], _ => []
  | r :: rs, seen =>
      if Row.get r c ∈ seen then dedupRowsAux c rs seen
      else r :: dedupRowsAux c rs (Row.get r c :: seen)

/-- `df.drop_duplicates(subset=[c])`, keeping first occurrences. -/
def DataFrame.dedupBy (df : DataFrame) (c : String) : DataFrame :=
  ⟨df.cols, dedupRowsAux c df.rows []⟩

/-- Python `str()` of a cell, as produced by `astype(str)`. -/
def Value.toPyStr : Value → String
  | Value.null => "None"
  | Value.int i => toString i
  | Value.rat q => toString q
  | Value.str s => s
  | Value.bool b => if b then "True" else "False"

/-- Elementwise pandas equality test (`series == v`): null compares unequal
to everything, including null. -/
def valueEqPandas (a b : Value) : Bool :=
  if a = Value.null ∨ b = Value.null then false else a = b

/-- `series.clip(lower=mn)` on a cell: numeric cells are raised to the
bound, null and other cells pass through (as NaN does under pandas clip). -/
def clipLower (mn : Int) : Value → Value
  | Value.int i => Value.int (max i mn)
  | Value.rat q => Value.rat (max q (mn : ℚ))
  | v => v

/-- `series.clip(upper=mx)` on a cell. -/
def clipUpper (mx : Int) : Value → Value
  | Value.int i => Value.int (min i mx)
  | Value.rat q => Value.rat (min q (mx : ℚ))
  | v => v

/-! Regular expressions.  The source delegates to Python `re` through
`Series.str.match`, which anchors at the start of the string only.  Patterns
are embedded as an abstract syntax tree with the standard language
semantics; matching is by Brzozowski derivatives. -/

/-- Regular-expression abstract syntax. -/
inductive Regex where
  | emp : Regex
  | eps : Regex
  | chr (c : Char) : Regex
  | anyc : Regex
  | alt (r s : Regex) : Regex
  | cat (r s : Regex) : Regex
  | star (r : Regex) : Regex
deriving DecidableEq

/-- Does the regex accept the empty string? -/
def Regex.nullable : Regex → Bool
  | Regex.emp => false
  | Regex.eps => true
  | Regex.chr _ => false
  | Regex.anyc => false
  | Regex.alt r s => r.nullable || s.nullable
  | Regex.cat r s => r.nullable && s.nullable
  | Regex.star _ => true

/-- Brzozowski derivative with respect to one character. -/
def Regex.deriv : Regex → Char → Regex
  | Regex.emp, _ => Regex.emp
  | Regex.eps, _ => Regex.emp
  | Regex.chr c, a => if c = a then Regex.eps else Regex.emp
  | Regex.anyc, _ => Regex.eps
  | Regex.alt r s, a => Regex.alt (r.deriv a) (s.deriv a)
  | Regex.cat r s, a =>
      if r.nullable then Regex.alt (Regex.cat (r.deriv a) s) (s.deriv a)
      else Regex.cat (r.deriv a) s
  | Regex.star r, a => Regex.cat (r.deriv a) (Regex.star r)

/-- Full match: the whole string is in the regex's language
(Python `re.fullmatch`). -/
def Regex.matchFull (r : Regex) : List Char → Bool
  | [] => r.nullable
  | c :: cs => (r.deriv c).matchFull cs

/-- Anchored-at-start match: some prefix of the string is in the regex's
language.  This is the semantics of Python `re.match` and hence of pandas
`Series.str.match` used by the constraint enforcer. -/
def Regex.matchStart (r : Regex) : List Char → Bool
  | [] => r.nullable
  | c :: cs => r.nullable || (r.deriv c).matchStart cs

/-! Constraint enforcement — `core/constraint_enforcer.py`.  The source's
constraint dicts (keyed by a `type` string) are embedded as a closed sum;
`other` stands for any unrecognised `type`, which the source ignores. -/

/-- One constraint dict. -/
inductive Constraint where
  | value_range (column : String) (vmin vmax : Option Int) : Constraint
  | categorical (column : String) (values : List Value) : Constraint
  | nullability (column : String) (nullable : Bool) : Constraint
  | regex (column : String) (pattern : Option Regex) : Constraint
  | unique (column : String) : Constraint
  | graph_relation (column : String) : Constraint
  | other (column : String) : Constraint

/-- The `column` field of a constraint dict. -/
def Constraint.column : Constraint → String
  | Constraint.value_range c _ _ => c
  | Constraint.categorical c _ => c
  | Constraint.nullability c _ => c
  | Constraint.regex c _ => c
  | Constraint.unique c => c
  | Constraint.graph_relation c => c
  | Constraint.other c => c

/-- The body of one iteration of the constraint loop of
`enforce_constraints`, for a constraint whose column is present. -/
def applyConstraintHit (df : DataFrame) : Constraint → DataFrame
  | Constraint.value_range col mn mx =>
      let df1 := match mn with
        | some m => df.setCol col ((df.col col).map (clipLower m))
        | none => df
      match mx with
      | some m => df1.setCol col ((df1.col col).map (clipUpper m))
      | none => df1
  | Constraint.categorical col allowed =>
      if allowed.isEmpty then df
      else df.filterRows (fun r => allowed.contains (Row.get r col))
  | Constraint.nullability col nullable =>
      if nullable then df
      else df.filterRows (fun r => Row.get r col ≠ Value.null)
  | Constraint.regex col pat =>
      match pat with
      | some p => df.filterRows (fun r => p.matchStart (Row.get r col).toPyStr.toList)
      | none => df
  | Constraint.unique col => df.dedupBy col
  | Constraint.graph_relation _ => df
  | Constraint.other _ => df

/-- One iteration of the constraint loop of `enforce_constraints`: a
constraint naming an absent column is skipped. -/
def applyConstraint (df : DataFrame) (c : Constraint) : DataFrame :=
  if c.column ∈ df.cols then applyConstraintHit df c else df

/-- `enforce_constraints(df, constraints)`: fold the constraint list over
the frame (the source's empty-list early return and final
`reset_index(drop=True)` are identities here). -/
def enforce_constraints (df : DataFrame) (cs : List Constraint) : DataFrame :=
  cs.foldl applyConstraint df

/-! Column generation — `core/column_generator.py`.  The process-global
random streams (`random`, `numpy.random`) and the locale-aware faker
instances are abstracted into an `Oracle` of indexed value streams;
categorical/boolean sampling weights only shape those streams and are
absorbed into them. -/

/-- The random/faker streams available to the generators. -/
structure Oracle where
  /-- Faker-style categorical token (word, name, date, ...). -/
  word : Nat → String
  /-- A random index/digit selection (`random.choices`, `np.random.choice`,
  `random.randint`, ...); used modulo the candidate count. -/
  choice : Nat → Nat
  /-- The stream of `np.random.normal(mean, stddev)` draws. -/
  normalDraw : ℚ → ℚ → Nat → ℚ

/-- A `distribution` dict of a column spec.  `cases` maps a sibling value
to its sub-distribution dict; `none` models a falsy (empty) case dict. -/
inductive Distribution where
  | mk (dtype : Option String) (values : List Value) (start step : Int)
      (vmin vmax : Option Int) (mean stddev : ℚ) (pattern : Option String)
      (onCol : Option String) (cases : List (Value × Option Distribution)) : Distribution

/-- The `type` entry of a distribution dict. -/
def Distribution.dtype : Distribution → Option String
  | Distribution.mk d _ _ _ _ _ _ _ _ _ _ => d

/-- The `values` entry (categorical). -/
def Distribution.values : Distribution → List Value
  | Distribution.mk _ v _ _ _ _ _ _ _ _ _ => v

/-- The `start` entry (sequential), defaulted to 1 at read time. -/
def Distribution.start : Distribution → Int
  | Distribution.mk _ _ s _ _ _ _ _ _ _ _ => s

/-- The `step` entry (sequential), defaulted to 1 at read time. -/
def Distribution.step : Distribution → Int
  | Distribution.mk _ _ _ s _ _ _ _ _ _ _ => s

/-- The `min` entry, when present. -/
def Distribution.vmin : Distribution → Option Int
  | Distribution.mk _ _ _ _ m _ _ _ _ _ _ => m

/-- The `max` entry, when present. -/
def Distribution.vmax : Distribution → Option Int
  | Distribution.mk _ _ _ _ _ m _ _ _ _ _ => m

/-- The `mean` entry, defaulted to 50 at read time. -/
def Distribution.mean : Distribution → ℚ
  | Distribution.mk _ _ _ _ _ _ m _ _ _ _ => m

/-- The `stddev` entry, defaulted to 10 at read time. -/
def Distribution.stddev : Distribution → ℚ
  | Distribution.mk _ _ _ _ _ _ _ s _ _ _ => s

/-- The `pattern` entry (custom format), when present. -/
def Distribution.pattern : Distribution → Option String
  | Distribution.mk _ _ _ _ _ _ _ _ p _ _ => p

/-- The `on` entry (conditional), when present. -/
def Distribution.onCol : Distribution → Option String
  | Distribution.mk _ _ _ _ _ _ _ _ _ o _ => o

/-- The `cases` entry (conditional). -/
def Distribution.cases : Distribution → List (Value × Option Distribution)
  | Distribution.mk _ _ _ _ _ _ _ _ _ _ c => c

/-- The empty distribution dict (`column_def.get("distribution", {}) or {}`
with every entry read back at its in-code default). -/
def emptyDist : Distribution :=
  Distribution.mk none [] 1 1 none none 50 10 none none []

/-- A foreign-key declaration `{table, column}` on a column spec. -/
structure FKRef where
  table : String
  column : String
deriving DecidableEq

/-- A column spec dict. -/
structure ColumnSpec where
  name : String
  ctype : Option String := none
  distribution : Option Distribution := none
  foreign_key : Option FKRef := none
  unique : Bool := false
  nullable : Bool := true

/-- ASCII lowercase of one character (Python `str.lower()` on the ASCII
column names used for dispatch). -/
def lowerChar (c : Char) : Char :=
  if 'A' ≤ c ∧ c ≤ 'Z' then Char.ofNat (c.toNat + 32) else c

/-- ASCII lowercase of a string. -/
def lowerStr (s : String) : String := String.mk (s.toList.map lowerChar)

/-- Python `range(start, stop, step)` length: CPython computes
`max(0, (stop - start + step - 1) // step)` for positive step and the
mirrored formula for negative step (floor division by a positive divisor is
natural division of the clamped numerator). -/
def pyRangeLen (start stop step : Int) : Nat :=
  if 0 < step then (stop - start + step - 1).toNat / step.toNat
  else (start - stop - step - 1).toNat / (-step).toNat

/-- Python `list(range(start, stop, step))`; a zero step raises
`ValueError`. -/
def pyRange (start stop step : Int) : Except String (List Int) :=
  if step = 0 then Except.error "range() arg 3 must not be zero"
  else Except.ok ((List.range (pyRangeLen start stop step)).map (fun (i : Nat) => start + step * (i : Int)))

/-- `numpy.round` on a rational: round half to even. -/
def roundHalfEven (q : ℚ) : Int :=
  let f := ⌊q⌋
  let r := q - (f : ℚ)
  if r < 1 / 2 then f
  else if 1 / 2 < r then f + 1
  else if f % 2 = 0 then f else f + 1

/-- `np.clip(x, mn, mx) = np.minimum(mx, np.maximum(x, mn))`. -/
def npClip (x mn mx : Int) : Int := min mx (max x mn)

/-- `_generate_name` (and, via the shared faker abstraction, the other
faker-token draws): one provider call per row. -/
def genNameVals (o : Oracle) (n : Nat) : List Value :=
  (List.range n).map (fun i => Value.str (o.word i))

/-- `faker.word()` fallback loop. -/
def fallbackWords (o : Oracle) (n : Nat) : List Value :=
  (List.range n).map (fun i => Value.str (o.word i))

/-- `_generate_custom_format` for one row: each `#` of the pattern becomes
an independently drawn digit, other characters pass through. -/
def formatPattern (o : Oracle) (p : String) (i : Nat) : String :=
  String.mk (p.toList.enum.map (fun jc =>
    if jc.2 = '#' then Nat.digitChar (o.choice (i * p.length + jc.1) % 10) else jc.2))

/-- `_generate_custom_format`: `pattern = dist.get("pattern") or ""`. -/
def genCustomFormat (o : Oracle) (d : Distribution) (n : Nat) : List Value :=
  (List.range n).map (fun i => Value.str (formatPattern o (d.pattern.getD "") i))

/-- `_generate_categorical`: sample from `values` when non-empty, else fall
back to faker words. -/
def genCategorical (o : Oracle) (d : Distribution) (n : Nat) : List Value :=
  if d.values.isEmpty then fallbackWords o n
  else (List.range n).map (fun i => d.values.getD (o.choice i % d.values.length) Value.null)

/-- `_generate_sequential`:
`list(range(start, start + step * num_rows, step))`. -/
def genSequential (d : Distribution) (n : Nat) : Except String (List Value) :=
  (pyRange d.start (d.start + d.step * n) d.step).map (List.map Value.int)

/-- `_generate_date`: independent draws from the faker date provider,
abstracted into the oracle's token stream. -/
def genDate (o : Oracle) (n : Nat) : List Value :=
  (List.range n).map (fun i => Value.str (o.word i))

/-- `_generate_integer`: uniform branch draws from `[min, max]` (numpy
raises when `low > high`); every other distribution type takes the normal
branch with rounding and clipping into `[min, max]`
(defaults `-10^9`/`10^9`). -/
def genInteger (o : Oracle) (d : Distribution) (n : Nat) : Except String (List Value) :=
  if d.dtype.getD "uniform" = "uniform" then
    let low := d.vmin.getD 0
    let high := d.vmax.getD 100
    if high < low then Except.error "low >= high"
    else Except.ok ((List.range n).map (fun i =>
      Value.int (low + (o.choice i % (high + 1 - low).toNat))))
  else
    let mn := d.vmin.getD (-(10 ^ 9))
    let mx := d.vmax.getD (10 ^ 9)
    Except.ok ((List.range n).map (fun i =>
      Value.int (npClip (roundHalfEven (o.normalDraw d.mean d.stddev i)) mn mx)))

/-- `_generate_float`: normal draws clipped into `[min, max]`
(defaults `-10^9`/`10^9`). -/
def genFloat (o : Oracle) (d : Distribution) (n : Nat) : List Value :=
  (List.range n).map (fun i =>
    Value.rat (min ((d.vmax.getD (10 ^ 9) : Int) : ℚ)
      (max (o.normalDraw d.mean d.stddev i) ((d.vmin.getD (-(10 ^ 9)) : Int) : ℚ))))

/-- `_generate_boolean`: one Bernoulli outcome per row. -/
def genBoolean (o : Oracle) (n : Nat) : List Value :=
  (List.range n).map (fun i => Value.bool (o.choice i % 2 = 0))

/-- The keys of `generator_map`. -/
def generatorKeys : List String :=
  ["name", "name_male", "name_female", "custom_format", "categorical", "sequential",
   "date", "integer", "float", "boolean", "uniform", "normal", "conditional"]

/-- Dispatch one non-recursive generator by its `generator_map` key. -/
def runGen (o : Oracle) (key : String) (d : Distribution) (n : Nat) :
    Except String (List Value) :=
  if key = "name" then Except.ok (genNameVals o n)
  else if key = "name_male" then Except.ok (genNameVals o n)
  else if key = "name_female" then Except.ok (genNameVals o n)
  else if key = "custom_format" then Except.ok (genCustomFormat o d n)
  else if key = "categorical" then Except.ok (genCategorical o d n)
  else if key = "sequential" then genSequential d n
  else if key = "date" then Except.ok (genDate o n)
  else if key = "integer" then genInteger o d n
  else if key = "float" then Except.ok (genFloat o d n)
  else if key = "boolean" then Except.ok (genBoolean o n)
  else if key = "uniform" then genInteger o d n
  else if key = "normal" then genInteger o d n
  else Except.ok (fallbackWords o n)

mutual

/-- Structural size of a distribution dict, used as recursion fuel for
nested conditional cases. -/
def distSize : Distribution → Nat
  | Distribution.mk _ _ _ _ _ _ _ _ _ _ cs => 1 + casesSize cs

/-- Structural size of a conditional `cases` list. -/
def casesSize : List (Value × Option Distribution) → Nat
  | [] => 0
  | (_, none) :: rest => 1 + casesSize rest
  | (_, some d) :: rest => 1 + distSize d + casesSize rest

end

/-- The temporary column def built for a conditional case:
`{"distribution": case_def}`. -/
def tempColSpec (sub : Distribution) : ColumnSpec :=
  { name := "", distribution := some sub }

/-- `cases.get(on_value)`. -/
def caseLookup (cases : List (Value × Option Distribution)) (v : Value) :
    Option (Option Distribution) :=
  (cases.find? (fun p => p.1 = v)).map (fun p => p.2)

/-- `generate_column`, with explicit recursion fuel for the nested
conditional cases.  Fuel is only consumed when recursing into a case's
sub-distribution, so the wrapper's fuel of (size of the distribution + 1)
can never be exhausted; the fuel-out branch is dead code for totality. -/
def genColFuel : Nat → Oracle → ColumnSpec → Nat → Option DataFrame →
    Except String (List Value)
  | 0, _, _, _, _ => Except.error "maximum recursion depth exceeded"
  | fuel + 1, o, cd, n, td =>
    let ctype := cd.ctype.getD "string"
    let dist := cd.distribution.getD emptyDist
    let runDispatch : String → Except String (List Value) := fun key =>
      if key = "conditional" then
        match td with
        | none => Except.ok (List.replicate n Value.null)
        | some tdf =>
          match dist.onCol with
          | none => Except.ok (List.replicate n Value.null)
          | some onc =>
            if onc = "" ∨ dist.cases.isEmpty then Except.ok (List.replicate n Value.null)
            else
              tdf.rows.mapM (fun r =>
                match caseLookup dist.cases (Row.get r onc) with
                | some (some sub) =>
                    match genColFuel fuel o (tempColSpec sub) 1 td with
                    | Except.ok (v :: _) => Except.ok v
                    | Except.ok [] => Except.error "IndexError: list index out of range"
                    | Except.error m => Except.error m
                | some none => Except.ok Value.null
                | none => Except.ok Value.null)
      else runGen o key dist n
    let gkey : Option String :=
      match dist.dtype with
      | some k => some k
      | none =>
        if generatorKeys.contains ctype then some ctype
        else if (dist.pattern.getD "") ≠ "" then some "custom_format"
        else if lowerStr cd.name = "name" ∨ lowerStr cd.name = "fullname" then some "name"
        else none
    match gkey with
    | some k =>
      if generatorKeys.contains k then runDispatch k
      else if generatorKeys.contains ctype then runDispatch ctype
      else Except.ok (fallbackWords o n)
    | none =>
      if generatorKeys.contains ctype then runDispatch ctype
      else Except.ok (fallbackWords o n)

/-- `generate_column(column_def, n, faker_manager, table_locale,
table_data)`. -/
def generate_column (o : Oracle) (cd : ColumnSpec) (n : Nat)
    (td : Option DataFrame) : Except String (List Value) :=
  genColFuel ((cd.distribution.map distSize).getD 0 + 1) o cd n td

/-! Foreign-key assignment — `core/fk_manager.py`.  The `seed` parameter
only reseeds the global `random` stream and is absorbed into the choice
oracle. -/

/-- The optional `condition` argument: a per-row predicate (callable) or a
`{"col": ..., "value": ...}` dict whose `col` entry may be absent. -/
inductive FKCond where
  | pred (f : Row → Bool) : FKCond
  | dict (col : Option String) (value : Value) : FKCond

/-- The `i`-th `random.choices(parent_ids, ...)` draw. -/
def sampleIds (ids : List Value) (choice : Nat → Nat) (i : Nat) : Value :=
  ids.getD (choice i % ids.length) Value.null

/-- Masked assignment: rows whose mask bit is true receive consecutive
sampled values, the rest receive null
(`df.loc[mask, c] = random.choices(...); df.loc[~mask, c] = None`). -/
def assignRowsCond (c : String) (ids : List Value) (choice : Nat → Nat) :
    Nat → List (Row × Bool) → List Row
  | _, [] => []
  | k, (r, true) :: rest =>
      Row.set r c (sampleIds ids choice k) :: assignRowsCond c ids choice (k + 1) rest
  | k, (r, false) :: rest =>
      Row.set r c Value.null :: assignRowsCond c ids choice k rest

/-- `assign_foreign_key(child_df, child_col, parent_df, parent_col,
condition, seed)`. -/
def assign_foreign_key (child : DataFrame) (child_col : String)
    (parent? : Option DataFrame) (parent_col : String)
    (condition : Option FKCond) (choice : Nat → Nat) : Except String DataFrame :=
  match parent? with
  | none => Except.error "Parent data must contain parent_col"
  | some parent =>
    if parent_col ∈ parent.cols then
      let ids := distinctNonNull (parent.col parent_col)
      if ids.isEmpty then Except.error "No parent keys to sample from"
      else
        match condition with
        | none =>
            Except.ok (child.setCol child_col
              ((List.range child.rows.length).map (sampleIds ids choice)))
        | some (FKCond.pred f) =>
            Except.ok ⟨child.addCol child_col,
              assignRowsCond child_col ids choice 0 (child.rows.map (fun r => (r, f r)))⟩
        | some (FKCond.dict none _) =>
            Except.error "Condition dict must have a 'col' key"
        | some (FKCond.dict (some cc) cv) =>
            if cc ∈ child.cols then
              Except.ok ⟨child.addCol child_col,
                assignRowsCond child_col ids choice 0
                  (child.rows.map (fun r => (r, valueEqPandas (Row.get r cc) cv)))⟩
            else Except.error ("KeyError: " ++ cc)
    else Except.error "Parent data must contain parent_col"

/-! Expression evaluation — `core/derived_column_evaluator.py` and
`core/causal_data_generator.py`.  Python evaluates free-form expression
text with `pd.eval` / `df.eval` (vectorised) and row-wise `eval`; the
expression's two evaluation modes are embedded as abstract partial
functions (the `noise(...)` rewriting of the causal generator and the
`np`/`pd`/context bindings are absorbed into them). -/

/-- The two evaluation modes of one expression. -/
structure ExprSem where
  /-- Whole-column evaluation (`pd.eval` / `df.eval`). -/
  vec : DataFrame → Except String (List Value)
  /-- Per-row evaluation (`df.apply(lambda row: eval(...), axis=1)`); a
  failure on any row fails the whole apply. -/
  row : Row → Except String Value

/-- `evaluate_derived(df, derived_defs, context)`: per target column, try
vectorised evaluation, fall back to row-wise evaluation, and on a second
failure set the whole column to NaN.  Total: no failure escapes.  A `none`
expression models a falsy `expr` (`if not expr: continue`). -/
def evaluate_derived (df : DataFrame) (defs : List (String × Option ExprSem)) :
    DataFrame :=
  defs.foldl (fun df p =>
    match p.2 with
    | none => df
    | some e =>
      match e.vec df with
      | Except.ok vs => df.setCol p.1 vs
      | Except.error _ =>
        match df.rows.mapM e.row with
        | Except.ok vs => df.setCol p.1 vs
        | Except.error _ => df.setCol p.1 (List.replicate df.rows.length Value.null)) df

/-- `generate_causal_by_scm(df, scm_spec)` (the pipeline passes no
metadata): per column, try vectorised evaluation, fall back to row-wise
evaluation — whose failure is NOT caught and propagates
(`df.apply(lambda row: eval(expr_eval, ...), axis=1)` outside any try). -/
def generate_causal_by_scm (df : DataFrame)
    (scm : List (String × Option ExprSem)) : Except String DataFrame :=
  if df.rows.isEmpty ∨ df.cols.isEmpty then Except.ok df
  else if scm.isEmpty then Except.ok df
  else
    scm.foldlM (fun df p =>
      match p.2 with
      | none => Except.ok df
      | some e =>
        match e.vec df with
        | Except.ok vs => Except.ok (df.setCol p.1 vs)
        | Except.error _ =>
          match df.rows.mapM e.row with
          | Except.ok vs => Except.ok (df.setCol p.1 vs)
          | Except.error m => Except.error m) df

/-! Schema objects — the normalized `tables` form consumed by
`core/scenario_data_generator.py`. -/

/-- A `time_series_spec` dict (`core/temporal_data_generator.py`). -/
structure TimeSeriesSpec where
  column : String := "timestamp"
  start : String := ""
  freq : String := "D"

/-- One table spec of the working schema. -/
structure TableSpec where
  name : String
  locale : Option String := none
  rows : Nat := 5
  columns : List ColumnSpec := []
  constraints : List Constraint := []
  time_series : Option TimeSeriesSpec := none
  scm : List (String × Option ExprSem) := []

/-- The normalized working schema (`tables` format). -/
structure Schema where
  tables : List TableSpec

/-- The generated tables, keyed by table name (a Python dict in insertion
order). -/
abbrev Tables := List (String × DataFrame)

/-- Dict lookup `all_tables.get(name)`. -/
def Tables.get : Tables → String → Option DataFrame
  | [], _ => none
  | (k, df) :: ts, name => if k = name then some df else Tables.get ts name

/-- Dict store `all_tables[name] = df`. -/
def Tables.set : Tables → String → DataFrame → Tables
  | [], name, df => [(name, df)]
  | (k, d) :: ts, name, df =>
      if k = name then (k, df) :: ts else (k, d) :: Tables.set ts name df

/-! Dependency analysis — `core/dependency_analyzer.py` (networkx
topological sort, embedded as Kahn's algorithm over the deduplicated
node and edge lists). -/

/-- The error message of the cyclic-dependency `ValueError`. -/
def cyclicMsg : String := "Cyclic dependency detected among tables"

/-- One table node per table name, in insertion order. -/
def schemaNodes (s : Schema) : List String :=
  keepFirsts (s.tables.map (fun t => t.name))

/-- One `parent → child` edge per foreign-key declaration whose target is a
known table (`if parent and parent in tables`). -/
def schemaEdges (s : Schema) : List (String × String) :=
  keepFirsts (s.tables.flatMap (fun t =>
    t.columns.filterMap (fun c =>
      match c.foreign_key with
      | some fk =>
          if fk.table ≠ "" ∧ fk.table ∈ s.tables.map (fun u => u.name)
          then some (fk.table, t.name) else none
      | none => none)))

/-- Kahn's algorithm: repeatedly emit a remaining node with no incoming
edge from a remaining node; if none exists the graph is cyclic. -/
def kahnAux (edges : List (String × String)) :
    Nat → List String → List String → Except String (List String)
  | 0, remaining, acc =>
      if remaining.isEmpty then Except.ok acc.reverse else Except.error cyclicMsg
  | fuel + 1, remaining, acc =>
      if remaining.isEmpty then Except.ok acc.reverse
      else
        match remaining.find? (fun v =>
          !(edges.any (fun e => e.2 = v && remaining.contains e.1))) with
        | some v => kahnAux edges fuel (remaining.erase v) (v :: acc)
        | none => Except.error cyclicMsg

/-- `analyze_dependencies(spec)`: the topological order of the table
dependency graph, or the cyclic-dependency error. -/
def analyze_dependencies (s : Schema) : Except String (List String) :=
  kahnAux (schemaEdges s) (schemaNodes s).length (schemaNodes s) []

/-! Temporal columns — `core/temporal_data_generator.py`.  The pandas
timestamps of `pd.date_range(start, periods=n, freq)` are opaque external
values; the `i`-th of them is abstracted as a string tagged with the spec
and the index. -/

/-- `generate_time_series_for_table(df, time_spec)`: add one timestamp
column with exactly one entry per row. -/
def generate_time_series_for_table (df : DataFrame) (ts : TimeSeriesSpec) :
    DataFrame :=
  df.setCol ts.column ((List.range df.rows.length).map (fun i =>
    Value.str (ts.start ++ "+" ++ toString i ++ ts.freq)))

/-! The orchestrator — `core/scenario_data_generator.py`
(`generate_scenario_data`, `tables` schema format). -/

/-- Base-column generation for one table: an empty frame filled column by
column in declaration order (`df[col_name] = generate_column(...)`; the
rows are pre-sized to the requested count, which every generator returns),
then constraint enforcement, then the optional time-series column. -/
def buildBaseTable (o : Oracle) (t : TableSpec) : Except String DataFrame := do
  let df ← t.columns.foldlM (fun df cd =>
    (generate_column o cd t.rows none).map (fun vs => df.setCol cd.name vs))
    (⟨[], List.replicate t.rows []⟩ : DataFrame)
  let df := enforce_constraints df t.constraints
  match t.time_series with
  | some tsSpec => Except.ok (generate_time_series_for_table df tsSpec)
  | none => Except.ok df

/-- Sweep 1 — generate base tables in dependency order (a name without a
spec is skipped; the first spec with the name wins). -/
def generateBaseTables (o : Oracle) (s : Schema) (order : List String) :
    Except String Tables :=
  order.foldlM (fun tables name =>
    match s.tables.find? (fun t => t.name = name) with
    | none => Except.ok tables
    | some t => (buildBaseTable o t).map (fun df => tables.set name df)) []

/-- Sweep 2 step — assign every declared foreign key of one table
(`condition` is never passed by the orchestrator; a missing parent entry
skips the column silently). -/
def fkSweepTable (o : Oracle) (tables : Tables) (t : TableSpec) :
    Except String Tables :=
  match tables.get t.name with
  | none => Except.ok tables
  | some df₀ => do
    let df ← t.columns.foldlM (fun df cd =>
      match cd.foreign_key with
      | none => Except.ok df
      | some fk =>
        match tables.get fk.table with
        | none => Except.ok df
        | some parent =>
            assign_foreign_key df cd.name (some parent) fk.column none o.choice) df₀
    Except.ok (tables.set t.name df)

/-- Sweep 3 step — apply the optional SCM of one table and store the frame
back. -/
def scmSweepTable (tables : Tables) (t : TableSpec) : Except String Tables :=
  match tables.get t.name with
  | none => Except.ok tables
  | some df =>
    if t.scm.isEmpty then Except.ok (tables.set t.name df)
    else (generate_causal_by_scm df t.scm).map (fun df => tables.set t.name df)

/-- `generate_scenario_data(working_schema)`: dependency analysis, then the
three sweeps.  A raised error anywhere aborts the whole run with no tables
returned. -/
def generate_scenario_data (o : Oracle) (s : Schema) : Except String Tables := do
  let order ← analyze_dependencies s
  let tables ← generateBaseTables o s order
  let tables ← s.tables.foldlM (fkSweepTable o) tables
  s.tables.foldlM scmSweepTable tables

/-! Post-generation validation — `core/post_validator.py`. -/

/-- One iteration of the foreign-key validation loop: look the parent up in
the current table dict, recompute its valid-key set, and null out child
values outside it (reading a child column absent from the frame raises
`KeyError`; a missing parent table or parent column skips the check but
still stores the frame back). -/
def pgvFKStep (tname : String) (tbs : Tables) (cd : ColumnSpec) :
    Except String Tables :=
  match cd.foreign_key with
  | none => Except.ok tbs
  | some fk =>
    match Tables.get tbs tname with
    | none => Except.ok tbs
    | some df =>
      match Tables.get tbs fk.table with
      | none => Except.ok (tbs.set tname df)
      | some parent =>
        if fk.column ∈ parent.cols then
          if cd.name ∈ df.cols then
            let valid := distinctNonNull (parent.col fk.column)
            Except.ok (tbs.set tname
              ⟨df.cols, df.rows.map (fun r =>
                if valid.contains (Row.get r cd.name) then r
                else Row.set r cd.name Value.null)⟩)
          else Except.error ("KeyError: " ++ cd.name)
        else Except.ok (tbs.set tname df)

/-- The foreign-key validation pass over one table's columns. -/
def pgvFKPass (tname : String) (cols : List ColumnSpec) (tbs : Tables) :
    Except String Tables :=
  cols.foldlM (pgvFKStep tname) tbs

/-- One iteration of the uniqueness loop: drop duplicates keeping first
occurrences. -/
def pgvUniqueStep (tname : String) (tbs : Tables) (cd : ColumnSpec) : Tables :=
  if cd.unique then
    match Tables.get tbs tname with
    | some df => if cd.name ∈ df.cols then tbs.set tname (df.dedupBy cd.name) else tbs
    | none => tbs
  else tbs

/-- The uniqueness pass over one table's columns. -/
def pgvUniquePass (tname : String) (cols : List ColumnSpec) (tbs : Tables) : Tables :=
  cols.foldl (pgvUniqueStep tname) tbs

/-- One iteration of the nullability loop: drop rows null in a non-nullable
column. -/
def pgvNullStep (tname : String) (tbs : Tables) (cd : ColumnSpec) : Tables :=
  if cd.nullable then tbs
  else
    match Tables.get tbs tname with
    | some df =>
        if cd.name ∈ df.cols then
          tbs.set tname (df.filterRows (fun r => Row.get r cd.name ≠ Value.null))
        else tbs
    | none => tbs

/-- The nullability pass over one table's columns. -/
def pgvNullPass (tname : String) (cols : List ColumnSpec) (tbs : Tables) : Tables :=
  cols.foldl (pgvNullStep tname) tbs

/-- Per-table validation: foreign keys, then uniqueness, then nullability
(a table without generated data is skipped). -/
def pgvTable (tbs : Tables) (t : TableSpec) : Except String Tables :=
  match Tables.get tbs t.name with
  | none => Except.ok tbs
  | some _ =>
      (pgvFKPass t.name t.columns tbs).map (fun tbs1 =>
        pgvNullPass t.name t.columns (pgvUniquePass t.name t.columns tbs1))

/-- `post_generation_validate(all_tables, spec)`: the per-table validation
fold over the spec's table list (a spec without tables returns the dict
unchanged). -/
def post_generation_validate (tables : Tables) (s : Schema) :
    Except String Tables :=
  s.tables.foldlM pgvTable tables

/-! Streaming sequential state — `main.py`
(`generate_tables_from_graph`, streaming branch). -/

/-- The per-batch sequential counter update:
`sequential_state[key] = current_start + (rate * step)`. -/
def streamAdvanceSequential (current_start step rate : Int) : Int :=
  current_start + rate * step

/-- Spec-side formulation of drop-duplicates: keep the first row of each
key and drop every later row whose key already occurred. -/
def specUnique (c : String) : List Row → List Row
  | [] => []
  | r :: rs => r :: specUnique c (rs.filter (fun x => Row.get x c ≠ Row.get r c))
termination_by l => l.length
decreasing_by
  simp only [List.length_cons]
  exact Nat.lt_succ_of_le (List.length_filter_le _ _)

/-- Boolean check of claim C1's invariant: every non-null entry of every
declared foreign-key column is a member of the referenced parent key
column's distinct non-null value set, in the given (final) tables. -/
def fkConsistentB (s : Schema) (tbs : Tables) : Bool :=
  s.tables.all (fun t =>
    t.columns.all (fun cd =>
      match cd.foreign_key with
      | none => true
      | some fk =>
        match Tables.get tbs t.name with
        | none => true
        | some df =>
          df.rows.all (fun r =>
            Row.get r cd.name = Value.null ∨
              Row.get r cd.name ∈
                distinctNonNull (((Tables.get tbs fk.table).getD ⟨[], []⟩).col fk.column))))

/-! Concrete instances used by the verification scenarios below. -/

/-- A fixed oracle: constant faker tokens, always-zero index choices,
always-zero normal draws. -/
def oracle0 : Oracle := ⟨fun _ => "w", fun _ => 0, fun _ _ _ => 0⟩

/-- An oracle whose normal draws land far outside typical bounds and on
half-integers, exercising rounding and clamping. -/
def oracleWild : Oracle :=
  ⟨fun _ => "w", fun _ => 0, fun _ _ i => 1000 * i - 500 + 1 / 2⟩

/-- A sequential distribution dict `{type: sequential, start, step}`. -/
def seqDist (s k : Int) : Distribution :=
  Distribution.mk (some "sequential") [] s k none none 50 10 none none []

/-- A normal distribution dict `{type: normal, mean, stddev, min, max}` for
an integer column. -/
def normalIntDist (mean stddev : ℚ) (mn mx : Int) : Distribution :=
  Distribution.mk (some "normal") [] 1 1 (some mn) (some mx) mean stddev none none []

/-- The `Customer.age`-style column spec of the spec's scenario: integer,
normal with bounds. -/
def c9colSpec (mean stddev : ℚ) (mn mx : Int) : ColumnSpec :=
  { name := "age", ctype := some "integer",
    distribution := some (normalIntDist mean stddev mn mx) }

/-- Claim C1, counterexample schema: the child table is validated before
its parent, and the parent carries a unique column. -/
def c1cexSchema : Schema := ⟨[
  { name := "Child", columns := [ { name := "pid", foreign_key := some ⟨"Parent", "id"⟩ } ] },
  { name := "Parent", columns := [ { name := "id" }, { name := "code", unique := true } ] } ]⟩

/-- Claim C1, counterexample input tables: `Child.pid = 2` references the
parent row that the parent's uniqueness pass will drop. -/
def c1cexTables : Tables :=
  [("Child", ⟨["pid"], [[("pid", Value.int 2)]]⟩),
   ("Parent", ⟨["id", "code"],
     [[("id", Value.int 1), ("code", Value.str "a")],
      [("id", Value.int 2), ("code", Value.str "a")]]⟩)]

/-- Claim C1, counterexample output: the dangling `pid = 2` survives while
the parent keeps only `id = 1`. -/
def c1cexOut : Tables :=
  [("Child", ⟨["pid"], [[("pid", Value.int 2)]]⟩),
   ("Parent", ⟨["id", "code"], [[("id", Value.int 1), ("code", Value.str "a")]]⟩)]

/-- Claim C1, witness: the child column spec of the well-ordered schema. -/
def c1witChildCd : ColumnSpec := { name := "pid", foreign_key := some ⟨"Parent", "id"⟩ }

/-- Claim C1, witness: the child table spec of the well-ordered schema. -/
def c1witChildSpec : TableSpec := { name := "Child", columns := [c1witChildCd] }

/-- Claim C1, witness schema: parent first, parent inert. -/
def c1witSchema : Schema :=
  ⟨[{ name := "Parent", columns := [ { name := "id" } ] }, c1witChildSpec]⟩

/-- Claim C1, witness parent frame. -/
def c1witParentDf : DataFrame := ⟨["id"], [[("id", Value.int 1)], [("id", Value.int 2)]]⟩

/-- Claim C1, witness input tables. -/
def c1witTables : Tables :=
  [("Parent", c1witParentDf), ("Child", ⟨["pid"], [[("pid", Value.int 2)]]⟩)]

/-- Claim C1, witness output tables (validation changes nothing here). -/
def c1witOut : Tables := c1witTables

/-- Claim C2: the acyclic chain schema — B references A, C references B. -/
def chainSchema : Schema := ⟨[
  { name := "A", rows := 2, columns := [ { name := "id", distribution := some (seqDist 1 1) } ] },
  { name := "B", rows := 2, columns := [ { name := "id", distribution := some (seqDist 1 1) },
      { name := "a_id", foreign_key := some ⟨"A", "id"⟩ } ] },
  { name := "C", rows := 2, columns := [ { name := "id", distribution := some (seqDist 1 1) },
      { name := "b_id", foreign_key := some ⟨"B", "id"⟩ } ] } ]⟩

/-- Claim C2: the cyclic schema — A and B reference each other. -/
def cycSchema : Schema := ⟨[
  { name := "A", rows := 2, columns := [ { name := "b_id", foreign_key := some ⟨"B", "x"⟩ } ] },
  { name := "B", rows := 2, columns := [ { name := "a_id", foreign_key := some ⟨"A", "x"⟩ } ] } ]⟩

/-- Claim C3 witness: the pipeline output on the chain schema under
`oracle0`. -/
def c3genTs : Tables :=
  [("A", ⟨["id"], [[("id", Value.int 1)], [("id", Value.int 2)]]⟩),
   ("B", ⟨["id", "a_id"],
     [[("id", Value.int 1), ("a_id", Value.int 1)],
      [("id", Value.int 2), ("a_id", Value.int 1)]]⟩),
   ("C", ⟨["id", "b_id"],
     [[("id", Value.int 1), ("b_id", Value.int 1)],
      [("id", Value.int 2), ("b_id", Value.int 1)]]⟩)]

/-- Claim C3 witness: the validated output (identical — nothing to repair). -/
def c3valTs : Tables := c3genTs

/-- Claim C3 witness: the final `A` table. -/
def c3aDf : DataFrame := ⟨["id"], [[("id", Value.int 1)], [("id", Value.int 2)]]⟩

/-- Claims C5/C10: a one-row parent frame. -/
def c5parent : DataFrame := ⟨["id"], [[("id", Value.int 1)]]⟩

/-- Claims C5/C10: a one-row child frame without the FK column. -/
def c5child : DataFrame := ⟨["x"], [[("x", Value.int 5)]]⟩

/-- Claims C5/C10: the assigner's output on `c5child` with no condition. -/
def c5outNone : DataFrame := ⟨["x", "fk"], [[("x", Value.int 5), ("fk", Value.int 1)]]⟩

/-- The error condition of `assign_foreign_key` as the code implements it:
missing parent, absent parent column, empty distinct non-null key set, a
dict condition without a `col` entry, or a dict condition naming an absent
child column. -/
def fkErrCond (child : DataFrame) (parent? : Option DataFrame) (parent_col : String)
    (condition : Option FKCond) : Prop :=
  parent? = none ∨
  (∃ p, parent? = some p ∧
    (parent_col ∉ p.cols ∨ distinctNonNull (p.col parent_col) = [])) ∨
  (∃ v, condition = some (FKCond.dict none v)) ∨
  (∃ cc v, condition = some (FKCond.dict (some cc) v) ∧ cc ∉ child.cols)

/-- Claim C6: an expression failing in both evaluation modes. -/
def exprBoom : ExprSem := ⟨fun _ => Except.error "boom", fun _ => Except.error "boom"⟩

/-- Claim C6: a one-row, one-column frame. -/
def c6df : DataFrame := ⟨["x"], [[("x", Value.int 1)]]⟩

/-- Claim C6: an expression whose vectorised evaluation fails but whose
row-wise evaluation succeeds (returns the row's `x` cell). -/
def exprRowOnly : ExprSem :=
  ⟨fun _ => Except.error "vecfail", fun r => Except.ok (Row.get r "x")⟩

/-- Claim C7: the conditional distribution — on `status`, case `"a"`
generates from a sequential sub-distribution starting at 99. -/
def c7condD : Distribution :=
  Distribution.mk (some "conditional") [] 1 1 none none 50 10 none (some "status")
    [(Value.str "a", some (seqDist 99 1))]

/-- Claim C7: the conditional column spec. -/
def c7scoreSpec : ColumnSpec := { name := "score", distribution := some c7condD }

/-- Claim C7: a table with a categorical `status` column (always `"a"`
under `oracle0`) and the conditional `score` column. -/
def c7Schema : Schema := ⟨[
  { name := "T", rows := 2, columns := [
      { name := "status",
        distribution := some (Distribution.mk (some "categorical") [Value.str "a"]
          1 1 none none 50 10 none none []) },
      c7scoreSpec ] } ]⟩

/-- Claim C7: the sibling data the conditional generator would need. -/
def c7statusDf : DataFrame :=
  ⟨["status"], [[("status", Value.str "a")], [("status", Value.str "a")]]⟩

/-- Claim C7: what the pipeline actually produces — `score` entirely null. -/
def c7outT : DataFrame :=
  ⟨["status", "score"],
   [[("status", Value.str "a"), ("score", Value.null)],
    [("status", Value.str "a"), ("score", Value.null)]]⟩

/-- Claim C8: a one-row frame whose `x` value is the string `"ab"`. -/
def c8df : DataFrame := ⟨["x"], [[("x", Value.str "ab")]]⟩

/-- Claim C8: the regex pattern `a`. -/
def c8pat : Regex := Regex.chr 'a'

/-! Basic lemmas about the tabular model. -/

theorem Row.get_set_self (r : Row) (c : String) (v : Value) :
    Row.get (Row.set r c v) c = v := by
  induction r with
  | nil => simp [Row.set, Row.get]
  | cons kv r ih =>
      obtain ⟨k, w⟩ := kv
      by_cases h : k = c
      · simp [Row.set, h, Row.get]
      · simp [Row.set, h, Row.get, ih]

theorem Row.get_set_ne (r : Row) (c c' : String) (v : Value) (h : c' ≠ c) :
    Row.get (Row.set r c v) c' = Row.get r c' := by
  induction r with
  | nil =>
      simp only [Row.set, Row.get]
      rw [if_neg (fun hh => h hh.symm)]
  | cons kv r ih =>
      obtain ⟨k, w⟩ := kv
      by_cases hk : k = c
      · subst hk
        simp [Row.set, Row.get, Ne.symm h]
      · simp [Row.set, hk, Row.get, ih]

theorem setColRows_length (c : String) :
    ∀ (rows : List Row) (vs : List Value), (setColRows c rows vs).length = rows.length := by
  intro rows
  induction rows with
  | nil => intro vs; simp [setColRows]
  | cons r rs ih =>
      intro vs
      cases vs with
      | nil => simp [setColRows, ih]
      | cons v vs => simp [setColRows, ih]

theorem setColRows_map_get_ne (c c' : String) (h : c' ≠ c) :
    ∀ (rows : List Row) (vs : List Value),
      (setColRows c rows vs).map (fun r => Row.get r c') =
        rows.map (fun r => Row.get r c') := by
  intro rows
  induction rows with
  | nil => intro vs; simp [setColRows]
  | cons r rs ih =>
      intro vs
      cases vs with
      | nil => simp [setColRows, ih, Row.get_set_ne _ _ _ _ h]
      | cons v vs => simp [setColRows, ih, Row.get_set_ne _ _ _ _ h]

theorem setCol_rows_length (df : DataFrame) (c : String) (vs : List Value) :
    (df.setCol c vs).rows.length = df.rows.length := by
  simp [DataFrame.setCol, setColRows_length]

theorem setCol_col_ne (df : DataFrame) (c c' : String) (vs : List Value) (h : c' ≠ c) :
    (df.setCol c vs).col c' = df.col c' := by
  simp [DataFrame.setCol, DataFrame.col, setColRows_map_get_ne c c' h]

theorem dedupRowsAux_sublist (c : String) :
    ∀ (rows : List Row) (seen : List Value), (dedupRowsAux c rows seen).Sublist rows := by
  intro rows
  induction rows with
  | nil => intro seen; simp [dedupRowsAux]
  | cons r rs ih =>
      intro seen
      by_cases h : Row.get r c ∈ seen
      · simp only [dedupRowsAux, if_pos h]
        exact (ih seen).cons r
      · simp only [dedupRowsAux, if_neg h]
        exact (ih (Row.get r c :: seen)).cons₂ r

theorem dedupRowsAux_length_le (c : String) (rows : List Row) (seen : List Value) :
    (dedupRowsAux c rows seen).length ≤ rows.length :=
  (dedupRowsAux_sublist c rows seen).length_le

theorem dedupRowsAux_subset (c : String) (rows : List Row) (seen : List Value) :
    ∀ r ∈ dedupRowsAux c rows seen, r ∈ rows :=
  fun _ h => (dedupRowsAux_sublist c rows seen).subset h

theorem keepFirstsAux_mem [DecidableEq α] :
    ∀ (xs seen : List α) (x : α), x ∈ keepFirstsAux xs seen ↔ x ∈ xs ∧ x ∉ seen := by
  intro xs
  induction xs with
  | nil => intro seen x; simp [keepFirstsAux]
  | cons y ys ih =>
      intro seen x
      by_cases hy : y ∈ seen
      · simp only [keepFirstsAux, if_pos hy, ih]
        constructor
        · rintro ⟨hx, hs⟩
          exact ⟨List.mem_cons_of_mem _ hx, hs⟩
        · rintro ⟨hx, hs⟩
          rcases List.mem_cons.mp hx with h | h
          · exact absurd (h ▸ hy) hs
          · exact ⟨h, hs⟩
      · simp only [keepFirstsAux, if_neg hy, List.mem_cons, ih, not_or]
        by_cases hxy : x = y
        · subst hxy
          simp [hy]
        · simp only [hxy, false_or]
          tauto

theorem keepFirsts_mem [DecidableEq α] (xs : List α) (x : α) :
    x ∈ keepFirsts xs ↔ x ∈ xs := by
  simp [keepFirsts, keepFirstsAux_mem]

theorem distinctNonNull_mem (vs : List Value) (v : Value) :
    v ∈ distinctNonNull vs ↔ v ∈ vs ∧ v ≠ Value.null := by
  simp [distinctNonNull, keepFirsts_mem, List.mem_filter]

theorem sampleIds_mem (ids : List Value) (choice : Nat → Nat) (i : Nat)
    (h : ids ≠ []) : sampleIds ids choice i ∈ ids := by
  have hlen : 0 < ids.length := List.length_pos.mpr h
  have hmod : choice i % ids.length < ids.length := Nat.mod_lt _ hlen
  simp only [sampleIds, List.getD_eq_getElem?_getD, List.getElem?_eq_getElem hmod,
    Option.getD_some]
  exact List.getElem_mem _

/-! Generic fold lemmas over `Except`. -/

theorem except_bind_ok {ε α β : Type _} (x : Except ε α) (g : α → Except ε β) (c : β) :
    (x >>= g) = Except.ok c ↔ ∃ b, x = Except.ok b ∧ g b = Except.ok c := by
  cases x with
  | ok b => simp [Bind.bind, Except.bind]
  | error e => simp [Bind.bind, Except.bind]

theorem foldlM_ok_rel {α β : Type _} (R : β → β → Prop)
    (htrans : ∀ a b c, R a b → R b c → R a c)
    (f : β → α → Except String β)
    (hstep : ∀ b a b', f b a = Except.ok b' → R b' b) :
    ∀ (l : List α) (b b' : β), List.foldlM f b l = Except.ok b' → R b' b ∨ b' = b := by
  intro l
  induction l with
  | nil =>
      intro b b' h
      rw [List.foldlM_nil] at h
      exact Or.inr (Except.ok.inj h.symm)
  | cons a l ih =>
      intro b b' h
      rw [List.foldlM_cons, except_bind_ok] at h
      obtain ⟨mid, hmid, hrest⟩ := h
      rcases ih mid b' hrest with hr | he
      · exact Or.inl (htrans _ _ _ hr (hstep _ _ _ hmid))
      · exact Or.inl (he ▸ hstep _ _ _ hmid)

theorem foldlM_ok_inv {α β : Type _} (P : β → Prop)
    (f : β → α → Except String β)
    (hstep : ∀ b a b', P b → f b a = Except.ok b' → P b') :
    ∀ (l : List α) (b b' : β), List.foldlM f b l = Except.ok b' → P b → P b' := by
  intro l
  induction l with
  | nil =>
      intro b b' h hp
      rw [List.foldlM_nil] at h
      obtain rfl := Except.ok.inj h.symm
      exact hp
  | cons a l ih =>
      intro b b' h hp
      rw [List.foldlM_cons, except_bind_ok] at h
      obtain ⟨mid, hmid, hrest⟩ := h
      exact ih mid b' hrest (hstep _ _ _ hp hmid)

theorem foldl_rel {α β : Type _} (R : β → β → Prop)
    (hrefl : ∀ b, R b b)
    (htrans : ∀ a b c, R a b → R b c → R a c)
    (f : β → α → β)
    (hstep : ∀ b a, R (f b a) b) :
    ∀ (l : List α) (b : β), R (List.foldl f b l) b := by
  intro l
  induction l with
  | nil => intro b; simpa [List.foldl] using hrefl b
  | cons a l ih =>
      intro b
      rw [List.foldl_cons]
      exact htrans _ _ _ (ih (f b a)) (hstep b a)

/-! Lemmas about the generated-tables dictionary. -/

theorem Tables.get_set_same (ts : Tables) (name : String) (df : DataFrame) :
    Tables.get (Tables.set ts name df) name = some df := by
  induction ts with
  | nil => simp [Tables.set, Tables.get]
  | cons p ts ih =>
      obtain ⟨k, d⟩ := p
      by_cases h : k = name
      · simp [Tables.set, h, Tables.get]
      · simp [Tables.set, h, Tables.get, ih]

theorem Tables.get_set_other (ts : Tables) (name name' : String) (df : DataFrame)
    (h : name' ≠ name) :
    Tables.get (Tables.set ts name df) name' = Tables.get ts name' := by
  induction ts with
  | nil =>
      simp only [Tables.set, Tables.get]
      rw [if_neg (fun hh => h hh.symm)]
  | cons p ts ih =>
      obtain ⟨k, d⟩ := p
      by_cases hk : k = name
      · subst hk
        simp only [Tables.set, if_pos rfl, Tables.get]
        rw [if_neg (fun hh => h hh.symm), if_neg (fun hh => h hh.symm)]
      · simp only [Tables.set, if_neg hk, Tables.get]
        by_cases hk' : k = name'
        · rw [if_pos hk', if_pos hk']
        · rw [if_neg hk', if_neg hk', ih]

/-! Lemmas about the column generators. -/

theorem pyRangeLen_exact (s k : Int) (n : Nat) (hk : k ≠ 0) :
    pyRangeLen s (s + k * n) k = n := by
  rcases lt_or_gt_of_ne hk with hneg | hpos
  · obtain ⟨m, hm⟩ : ∃ m : Nat, k = -((m : Int) + 1) := ⟨(-k - 1).toNat, by omega⟩
    subst hm
    have h1 : ¬(0 < -((m : Int) + 1)) := by omega
    have h2 : (s - (s + -((m : Int) + 1) * n) - -((m : Int) + 1) - 1).toNat
        = (m + 1) * n + m := by
      have : s - (s + -((m : Int) + 1) * n) - -((m : Int) + 1) - 1
          = ((m + 1) * n + m : Nat) := by push_cast; ring
      rw [this, Int.toNat_natCast]
    have h3 : (-(-((m : Int) + 1))).toNat = m + 1 := by omega
    rw [pyRangeLen, if_neg h1, h2, h3, Nat.add_comm, Nat.add_mul_div_left _ _ (Nat.succ_pos m),
      Nat.div_eq_of_lt (Nat.lt_succ_self m), Nat.zero_add]
  · obtain ⟨m, hm⟩ : ∃ m : Nat, k = (m : Int) + 1 := ⟨(k - 1).toNat, by omega⟩
    subst hm
    have h1 : (0 : Int) < (m : Int) + 1 := by omega
    have h2 : (s + ((m : Int) + 1) * n - s + ((m : Int) + 1) - 1).toNat
        = (m + 1) * n + m := by
      have : s + ((m : Int) + 1) * n - s + ((m : Int) + 1) - 1
          = ((m + 1) * n + m : Nat) := by push_cast; ring
      rw [this, Int.toNat_natCast]
    have h3 : ((m : Int) + 1).toNat = m + 1 := by omega
    rw [pyRangeLen, if_pos h1, h2, h3, Nat.add_comm, Nat.add_mul_div_left _ _ (Nat.succ_pos m),
      Nat.div_eq_of_lt (Nat.lt_succ_self m), Nat.zero_add]

theorem pyRange_exact (s k : Int) (n : Nat) (hk : k ≠ 0) :
    pyRange s (s + k * n) k =
      Except.ok ((List.range n).map (fun (i : Nat) => s + k * (i : Int))) := by
  rw [pyRange, if_neg hk, pyRangeLen_exact s k n hk]

theorem except_map_ok {ε α β : Type _} (f : α → β) (x : Except ε α) (c : β) :
    Except.map f x = Except.ok c ↔ ∃ b, x = Except.ok b ∧ f b = c := by
  cases x with
  | ok b => simp [Except.map]
  | error e => simp [Except.map]

theorem genSequential_ok_length (d : Distribution) (n : Nat) (vs : List Value)
    (h : genSequential d n = Except.ok vs) : vs.length = n := by
  rw [genSequential, except_map_ok] at h
  obtain ⟨l, hl, hv⟩ := h
  rw [pyRange] at hl
  by_cases hk : d.step = 0
  · rw [if_pos hk] at hl
    exact Except.noConfusion hl
  · rw [if_neg hk] at hl
    obtain rfl := Except.ok.inj hl
    subst hv
    rw [pyRangeLen_exact d.start d.step n hk]
    simp only [List.length_map, List.length_range]

theorem genCategorical_length (o : Oracle) (d : Distribution) (n : Nat) :
    (genCategorical o d n).length = n := by
  rw [genCategorical]
  split
  · simp [fallbackWords]
  · simp

theorem genInteger_ok_length (o : Oracle) (d : Distribution) (n : Nat) (vs : List Value)
    (h : genInteger o d n = Except.ok vs) : vs.length = n := by
  rw [genInteger] at h
  by_cases hu : d.dtype.getD "uniform" = "uniform"
  · rw [if_pos hu] at h
    by_cases hlh : d.vmax.getD 100 < d.vmin.getD 0
    · rw [if_pos hlh] at h
      exact Except.noConfusion h
    · rw [if_neg hlh] at h
      obtain rfl := Except.ok.inj h
      simp
  · rw [if_neg hu] at h
    obtain rfl := Except.ok.inj h
    simp

theorem runGen_ok_length (o : Oracle) (key : String) (d : Distribution) (n : Nat)
    (vs : List Value) (h : runGen o key d n = Except.ok vs) : vs.length = n := by
  rw [runGen] at h
  by_cases h1 : key = "name"
  · rw [if_pos h1] at h
    obtain rfl := Except.ok.inj h
    simp [genNameVals]
  rw [if_neg h1] at h
  by_cases h2 : key = "name_male"
  · rw [if_pos h2] at h
    obtain rfl := Except.ok.inj h
    simp [genNameVals]
  rw [if_neg h2] at h
  by_cases h3 : key = "name_female"
  · rw [if_pos h3] at h
    obtain rfl := Except.ok.inj h
    simp [genNameVals]
  rw [if_neg h3] at h
  by_cases h4 : key = "custom_format"
  · rw [if_pos h4] at h
    obtain rfl := Except.ok.inj h
    simp [genCustomFormat]
  rw [if_neg h4] at h
  by_cases h5 : key = "categorical"
  · rw [if_pos h5] at h
    obtain rfl := Except.ok.inj h
    simp [genCategorical_length]
  rw [if_neg h5] at h
  by_cases h6 : key = "sequential"
  · rw [if_pos h6] at h
    exact genSequential_ok_length d n vs h
  rw [if_neg h6] at h
  by_cases h7 : key = "date"
  · rw [if_pos h7] at h
    obtain rfl := Except.ok.inj h
    simp [genDate]
  rw [if_neg h7] at h
  by_cases h8 : key = "integer"
  · rw [if_pos h8] at h
    exact genInteger_ok_length o d n vs h
  rw [if_neg h8] at h
  by_cases h9 : key = "float"
  · rw [if_pos h9] at h
    obtain rfl := Except.ok.inj h
    simp [genFloat]
  rw [if_neg h9] at h
  by_cases h10 : key = "boolean"
  · rw [if_pos h10] at h
    obtain rfl := Except.ok.inj h
    simp [genBoolean]
  rw [if_neg h10] at h
  by_cases h11 : key = "uniform"
  · rw [if_pos h11] at h
    exact genInteger_ok_length o d n vs h
  rw [if_neg h11] at h
  by_cases h12 : key = "normal"
  · rw [if_pos h12] at h
    exact genInteger_ok_length o d n vs h
  rw [if_neg h12] at h
  obtain rfl := Except.ok.inj h
  simp [fallbackWords]

theorem dispatchNone_ok_length (o : Oracle) (d : Distribution) (n : Nat)
    (key : String) (vs : List Value)
    (h : (if key = "conditional" then Except.ok (List.replicate n Value.null)
          else runGen o key d n) = Except.ok vs) : vs.length = n := by
  by_cases hk : key = "conditional"
  · rw [if_pos hk] at h
    obtain rfl := Except.ok.inj h
    simp
  · rw [if_neg hk] at h
    exact runGen_ok_length o key d n vs h

theorem genColFuel_none_ok_length (fuel : Nat) (o : Oracle) (cd : ColumnSpec) (n : Nat)
    (vs : List Value) (h : genColFuel fuel o cd n none = Except.ok vs) :
    vs.length = n := by
  cases fuel with
  | zero => exact Except.noConfusion h
  | succ fuel =>
      simp only [genColFuel] at h
      repeat' split at h
      all_goals first
        | exact dispatchNone_ok_length o _ n _ vs h
        | exact runGen_ok_length o _ _ n vs h
        | (obtain rfl := Except.ok.inj h
           simp [fallbackWords])
        | (obtain rfl := Except.ok.inj h
           simp)

theorem generate_column_none_ok_length (o : Oracle) (cd : ColumnSpec) (n : Nat)
    (vs : List Value) (h : generate_column o cd n none = Except.ok vs) :
    vs.length = n :=
  genColFuel_none_ok_length _ o cd n vs h

/-! Row-count lemmas through the pipeline. -/

theorem filterRows_length_le (df : DataFrame) (p : Row → Bool) :
    (df.filterRows p).rows.length ≤ df.rows.length :=
  List.length_filter_le p df.rows

theorem dedupBy_length_le (df : DataFrame) (c : String) :
    (df.dedupBy c).rows.length ≤ df.rows.length :=
  dedupRowsAux_length_le c df.rows []

theorem applyConstraintHit_length_le (df : DataFrame) (c : Constraint) :
    (applyConstraintHit df c).rows.length ≤ df.rows.length := by
  cases c with
  | value_range col mn mx =>
      cases mn <;> cases mx <;> simp [applyConstraintHit, setCol_rows_length]
  | categorical col allowed =>
      rw [applyConstraintHit]
      split
      · exact le_refl _
      · exact filterRows_length_le df _
  | nullability col nullable =>
      rw [applyConstraintHit]
      split
      · exact le_refl _
      · exact filterRows_length_le df _
  | regex col pat =>
      cases pat with
      | some p => exact filterRows_length_le df _
      | none => exact le_refl _
  | unique col => exact dedupBy_length_le df col
  | graph_relation col => exact le_refl _
  | other col => exact le_refl _

theorem applyConstraint_length_le (df : DataFrame) (c : Constraint) :
    (applyConstraint df c).rows.length ≤ df.rows.length := by
  rw [applyConstraint]
  by_cases hc : c.column ∈ df.cols
  · rw [if_pos hc]
    exact applyConstraintHit_length_le df c
  · rw [if_neg hc]

theorem enforce_constraints_length_le (df : DataFrame) (cs : List Constraint) :
    (enforce_constraints df cs).rows.length ≤ df.rows.length := by
  rw [enforce_constraints]
  exact foldl_rel (fun (a b : DataFrame) => a.rows.length ≤ b.rows.length)
    (fun b => le_refl b.rows.length) (fun a b c hab hbc => le_trans hab hbc)
    applyConstraint (fun b a => applyConstraint_length_le b a) cs df

theorem assignRowsCond_length (c : String) (ids : List Value) (choice : Nat → Nat) :
    ∀ (k : Nat) (pairs : List (Row × Bool)),
      (assignRowsCond c ids choice k pairs).length = pairs.length := by
  intro k pairs
  induction pairs generalizing k with
  | nil => simp [assignRowsCond]
  | cons p rest ih =>
      obtain ⟨r, b⟩ := p
      cases b <;> simp [assignRowsCond, ih]

theorem assign_foreign_key_ok_length (child : DataFrame) (child_col : String)
    (parent? : Option DataFrame) (parent_col : String) (condition : Option FKCond)
    (choice : Nat → Nat) (out : DataFrame)
    (h : assign_foreign_key child child_col parent? parent_col condition choice
        = Except.ok out) :
    out.rows.length = child.rows.length := by
  cases parent? with
  | none => exact Except.noConfusion h
  | some parent =>
      rw [assign_foreign_key] at h
      by_cases hp : parent_col ∈ parent.cols
      · rw [if_pos hp] at h
        by_cases hids : (distinctNonNull (parent.col parent_col)).isEmpty
        · rw [if_pos hids] at h
          exact Except.noConfusion h
        · rw [if_neg hids] at h
          split at h
          · obtain rfl := (Except.ok.inj h).symm
            simp [setCol_rows_length]
          · obtain rfl := (Except.ok.inj h).symm
            simp [assignRowsCond_length]
          · exact Except.noConfusion h
          · split at h
            · obtain rfl := (Except.ok.inj h).symm
              simp [assignRowsCond_length]
            · exact Except.noConfusion h
      · rw [if_neg hp] at h
        exact Except.noConfusion h

theorem buildBaseTable_ok_length (o : Oracle) (t : TableSpec) (df : DataFrame)
    (h : buildBaseTable o t = Except.ok df) : df.rows.length ≤ t.rows := by
  rw [buildBaseTable] at h
  rw [except_bind_ok] at h
  obtain ⟨base, hbase, hrest⟩ := h
  have hlen : base.rows.length = t.rows := by
    have := foldlM_ok_inv (fun d => d.rows.length = t.rows)
      (fun df cd => (generate_column o cd t.rows none).map (fun vs => df.setCol cd.name vs))
      (fun b a b' hp hstep => by
        rw [except_map_ok] at hstep
        obtain ⟨vs, hvs, hset⟩ := hstep
        rw [← hset]
        simp [setCol_rows_length, hp])
      t.columns _ base hbase
    simpa using this
  have hen : (enforce_constraints base t.constraints).rows.length ≤ t.rows :=
    le_trans (enforce_constraints_length_le base t.constraints) (le_of_eq hlen)
  cases hts : t.time_series with
  | some tsSpec =>
      rw [hts] at hrest
      obtain rfl := (Except.ok.inj hrest).symm
      simpa [generate_time_series_for_table, setCol_rows_length] using hen
  | none =>
      rw [hts] at hrest
      obtain rfl := (Except.ok.inj hrest).symm
      exact hen

/-- Each generated table is bounded by the requested row count of a spec
table carrying its name. -/
def tableLenBound (s : Schema) (tbs : Tables) : Prop :=
  ∀ name df, Tables.get tbs name = some df →
    ∃ t ∈ s.tables, t.name = name ∧ df.rows.length ≤ t.rows

/-- Pointwise refinement of two table dicts: every entry of the first is an
entry of the second with at most as many rows. -/
def tablesLenLe (tbs' tbs : Tables) : Prop :=
  ∀ name df', Tables.get tbs' name = some df' →
    ∃ df, Tables.get tbs name = some df ∧ df'.rows.length ≤ df.rows.length

theorem tablesLenLe_refl (tbs : Tables) : tablesLenLe tbs tbs :=
  fun name df' h => ⟨df', h, le_refl _⟩

theorem tablesLenLe_trans (a b c : Tables) (hab : tablesLenLe a b)
    (hbc : tablesLenLe b c) : tablesLenLe a c := by
  intro name df' h
  obtain ⟨df2, h2, hle2⟩ := hab name df' h
  obtain ⟨df3, h3, hle3⟩ := hbc name df2 h2
  exact ⟨df3, h3, le_trans hle2 hle3⟩

theorem tableLenBound_of_le (s : Schema) (tbs tbs' : Tables)
    (hb : tableLenBound s tbs) (hle : tablesLenLe tbs' tbs) :
    tableLenBound s tbs' := by
  intro name df' h
  obtain ⟨df, hdf, hle'⟩ := hle name df' h
  obtain ⟨t, ht, hn, hlen⟩ := hb name df hdf
  exact ⟨t, ht, hn, le_trans hle' hlen⟩

/-- Storing an entry whose frame has no more rows than the stored one (or
than a fresh bound) preserves `tablesLenLe` against the pre-store dict. -/
theorem tablesLenLe_set (tbs : Tables) (name : String) (df₀ df : DataFrame)
    (hget : Tables.get tbs name = some df₀) (hle : df.rows.length ≤ df₀.rows.length) :
    tablesLenLe (Tables.set tbs name df) tbs := by
  intro name' df' h
  by_cases hn : name' = name
  · subst hn
    rw [Tables.get_set_same] at h
    obtain rfl := Option.some.inj h
    exact ⟨df₀, hget, hle⟩
  · rw [Tables.get_set_other _ _ _ _ hn] at h
    exact ⟨df', h, le_refl _⟩

theorem generateBaseTables_bound (o : Oracle) (s : Schema) (order : List String)
    (tbs : Tables) (h : generateBaseTables o s order = Except.ok tbs) :
    tableLenBound s tbs := by
  rw [generateBaseTables] at h
  refine foldlM_ok_inv (tableLenBound s) _ ?_ order [] tbs h ?_
  · intro b name b' hp hstep
    cases hfind : s.tables.find? (fun t => t.name = name) with
    | none =>
        rw [hfind] at hstep
        obtain rfl := Except.ok.inj hstep
        exact hp
    | some t =>
        rw [hfind] at hstep
        rw [except_map_ok] at hstep
        obtain ⟨df, hdf, hset⟩ := hstep
        subst hset
        have htmem : t ∈ s.tables := List.mem_of_find?_eq_some hfind
        have htname : t.name = name := by
          have := List.find?_some hfind
          simpa using this
        intro name' df' hget
        by_cases hn : name' = name
        · subst hn
          rw [Tables.get_set_same] at hget
          obtain rfl := Option.some.inj hget
          exact ⟨t, htmem, htname, buildBaseTable_ok_length o t _ hdf⟩
        · rw [Tables.get_set_other _ _ _ _ hn] at hget
          exact hp name' df' hget
  · intro name df h
    exact absurd h (by simp [Tables.get])

theorem fkSweepTable_ok_le (o : Oracle) (tbs : Tables) (t : TableSpec) (tbs' : Tables)
    (h : fkSweepTable o tbs t = Except.ok tbs') : tablesLenLe tbs' tbs := by
  rw [fkSweepTable] at h
  split at h
  · obtain rfl := Except.ok.inj h
    exact tablesLenLe_refl tbs
  · rename_i df₀ hget
    rw [except_bind_ok] at h
    obtain ⟨df, hdf, hset⟩ := h
    obtain rfl := Except.ok.inj hset
    have hlen : df.rows.length = df₀.rows.length := by
      refine foldlM_ok_inv (fun d => d.rows.length = df₀.rows.length) _ ?_
        t.columns df₀ df hdf rfl
      intro b cd b' hp hstep
      split at hstep
      · obtain rfl := Except.ok.inj hstep
        exact hp
      · rename_i fk hfk
        split at hstep
        · obtain rfl := Except.ok.inj hstep
          exact hp
        · rename_i parent hpar
          exact (assign_foreign_key_ok_length b cd.name (some parent) fk.column
            none o.choice b' hstep).trans hp
    exact tablesLenLe_set tbs t.name df₀ df hget (le_of_eq hlen)

theorem generate_causal_by_scm_ok_length (df : DataFrame)
    (scm : List (String × Option ExprSem)) (df' : DataFrame)
    (h : generate_causal_by_scm df scm = Except.ok df') :
    df'.rows.length = df.rows.length := by
  rw [generate_causal_by_scm] at h
  split at h
  · obtain rfl := Except.ok.inj h
    rfl
  · split at h
    · obtain rfl := Except.ok.inj h
      rfl
    · refine foldlM_ok_inv (fun d => d.rows.length = df.rows.length) _ ?_ scm df df' h rfl
      intro b p b' hp hstep
      split at hstep
      · obtain rfl := Except.ok.inj hstep
        exact hp
      · split at hstep
        · obtain rfl := Except.ok.inj hstep
          simp [setCol_rows_length, hp]
        · split at hstep
          · obtain rfl := Except.ok.inj hstep
            simp [setCol_rows_length, hp]
          · exact Except.noConfusion hstep

theorem scmSweepTable_ok_le (tbs : Tables) (t : TableSpec) (tbs' : Tables)
    (h : scmSweepTable tbs t = Except.ok tbs') : tablesLenLe tbs' tbs := by
  rw [scmSweepTable] at h
  split at h
  · obtain rfl := Except.ok.inj h
    exact tablesLenLe_refl tbs
  · rename_i df hget
    split at h
    · obtain rfl := Except.ok.inj h
      exact tablesLenLe_set tbs t.name df df hget (le_refl _)
    · rw [except_map_ok] at h
      obtain ⟨df', hdf', hset⟩ := h
      subst hset
      exact tablesLenLe_set tbs t.name df df' hget
        (le_of_eq (generate_causal_by_scm_ok_length df t.scm df' hdf'))

theorem pgvFKStep_ok_le (tname : String) (tbs : Tables) (cd : ColumnSpec)
    (tbs' : Tables) (h : pgvFKStep tname tbs cd = Except.ok tbs') :
    tablesLenLe tbs' tbs := by
  rw [pgvFKStep] at h
  split at h
  · obtain rfl := Except.ok.inj h
    exact tablesLenLe_refl tbs
  · rename_i fk hfk
    split at h
    · obtain rfl := Except.ok.inj h
      exact tablesLenLe_refl tbs
    · rename_i df hget
      split at h
      · obtain rfl := Except.ok.inj h
        exact tablesLenLe_set tbs tname df df hget (le_refl _)
      · rename_i parent hpar
        split at h
        · split at h
          · obtain rfl := Except.ok.inj h
            refine tablesLenLe_set tbs tname df _ hget ?_
            simp
          · exact Except.noConfusion h
        · obtain rfl := Except.ok.inj h
          exact tablesLenLe_set tbs tname df df hget (le_refl _)

theorem pgvUniqueStep_le (tname : String) (tbs : Tables) (cd : ColumnSpec) :
    tablesLenLe (pgvUniqueStep tname tbs cd) tbs := by
  rw [pgvUniqueStep]
  split
  · split
    · rename_i df hget
      split
      · exact tablesLenLe_set tbs tname df _ hget (dedupBy_length_le df cd.name)
      · exact tablesLenLe_refl tbs
    · exact tablesLenLe_refl tbs
  · exact tablesLenLe_refl tbs

theorem pgvNullStep_le (tname : String) (tbs : Tables) (cd : ColumnSpec) :
    tablesLenLe (pgvNullStep tname tbs cd) tbs := by
  rw [pgvNullStep]
  split
  · exact tablesLenLe_refl tbs
  · split
    · rename_i df hget
      split
      · exact tablesLenLe_set tbs tname df _ hget (filterRows_length_le df _)
      · exact tablesLenLe_refl tbs
    · exact tablesLenLe_refl tbs

theorem pgvTable_ok_le (tbs : Tables) (t : TableSpec) (tbs' : Tables)
    (h : pgvTable tbs t = Except.ok tbs') : tablesLenLe tbs' tbs := by
  rw [pgvTable] at h
  split at h
  · obtain rfl := Except.ok.inj h
    exact tablesLenLe_refl tbs
  · rw [except_map_ok] at h
    obtain ⟨tbs1, h1, hset⟩ := h
    subst hset
    have hle1 : tablesLenLe tbs1 tbs := by
      rcases foldlM_ok_rel tablesLenLe
        (fun a b c => tablesLenLe_trans a b c)
        (pgvFKStep t.name)
        (fun b a b' hs => pgvFKStep_ok_le t.name b a b' hs)
        t.columns tbs tbs1 h1 with hr | he
      · exact hr
      · exact he ▸ tablesLenLe_refl tbs
    have hle2 : tablesLenLe (pgvUniquePass t.name t.columns tbs1) tbs1 :=
      foldl_rel tablesLenLe tablesLenLe_refl
        (fun a b c => tablesLenLe_trans a b c)
        (pgvUniqueStep t.name) (fun b a => pgvUniqueStep_le t.name b a) t.columns tbs1
    have hle3 : tablesLenLe
        (pgvNullPass t.name t.columns (pgvUniquePass t.name t.columns tbs1))
        (pgvUniquePass t.name t.columns tbs1) :=
      foldl_rel tablesLenLe tablesLenLe_refl
        (fun a b c => tablesLenLe_trans a b c)
        (pgvNullStep t.name) (fun b a => pgvNullStep_le t.name b a) t.columns _
    exact tablesLenLe_trans _ _ _ (tablesLenLe_trans _ _ _ hle3 hle2) hle1

theorem post_generation_validate_ok_le (tables : Tables) (s : Schema)
    (tables' : Tables) (h : post_generation_validate tables s = Except.ok tables') :
    tablesLenLe tables' tables := by
  rw [post_generation_validate] at h
  rcases foldlM_ok_rel tablesLenLe (fun a b c => tablesLenLe_trans a b c)
    pgvTable (fun b a b' hs => pgvTable_ok_le b a b' hs) s.tables tables tables' h with
    hr | he
  · exact hr
  · exact he ▸ tablesLenLe_refl tables

theorem generate_scenario_data_bound (o : Oracle) (s : Schema) (tbs : Tables)
    (h : generate_scenario_data o s = Except.ok tbs) : tableLenBound s tbs := by
  rw [generate_scenario_data] at h
  rw [except_bind_ok] at h
  obtain ⟨order, horder, h⟩ := h
  rw [except_bind_ok] at h
  obtain ⟨base, hbase, h⟩ := h
  rw [except_bind_ok] at h
  obtain ⟨fkd, hfk, hscm⟩ := h
  have hb : tableLenBound s base := generateBaseTables_bound o s order base hbase
  have hle1 : tablesLenLe fkd base := by
    rcases foldlM_ok_rel tablesLenLe (fun a b c => tablesLenLe_trans a b c)
      (fkSweepTable o) (fun b a b' hs => fkSweepTable_ok_le o b a b' hs)
      s.tables base fkd hfk with hr | he
    · exact hr
    · exact he ▸ tablesLenLe_refl base
  have hle2 : tablesLenLe tbs fkd := by
    rcases foldlM_ok_rel tablesLenLe (fun a b c => tablesLenLe_trans a b c)
      scmSweepTable (fun b a b' hs => scmSweepTable_ok_le b a b' hs)
      s.tables fkd tbs hscm with hr | he
    · exact hr
    · exact he ▸ tablesLenLe_refl fkd
  exact tableLenBound_of_le s base tbs hb (tablesLenLe_trans _ _ _ hle2 hle1)

/-! Lemmas for the foreign-key consistency analysis of the post-generation
validator. -/

theorem foldlM_ok_inv_mem {α β : Type _} (P : β → Prop) (l : List α)
    (f : β → α → Except String β)
    (hstep : ∀ b a b', a ∈ l → P b → f b a = Except.ok b' → P b') :
    ∀ (b b' : β), List.foldlM f b l = Except.ok b' → P b → P b' := by
  induction l with
  | nil =>
      intro b b' h hp
      rw [List.foldlM_nil] at h
      obtain rfl := Except.ok.inj h.symm
      exact hp
  | cons a l ih =>
      intro b b' h hp
      rw [List.foldlM_cons, except_bind_ok] at h
      obtain ⟨mid, hmid, hrest⟩ := h
      exact ih (fun b a b' ha => hstep b a b' (List.mem_cons_of_mem _ ha)) mid b' hrest
        (hstep b a mid (List.mem_cons_self _ _) hp hmid)

theorem foldl_inv_mem {α β : Type _} (P : β → Prop) (l : List α) (f : β → α → β)
    (hstep : ∀ b a, a ∈ l → P b → P (f b a)) :
    ∀ (b : β), P b → P (List.foldl f b l) := by
  induction l with
  | nil => intro b hp; simpa using hp
  | cons a l ih =>
      intro b hp
      rw [List.foldl_cons]
      exact ih (fun b a ha => hstep b a (List.mem_cons_of_mem _ ha)) (f b a)
        (hstep b a (List.mem_cons_self _ _) hp)

theorem pgvFKStep_get_other (tname : String) (tbs : Tables) (cd : ColumnSpec)
    (tbs' : Tables) (h : pgvFKStep tname tbs cd = Except.ok tbs')
    (m : String) (hm : m ≠ tname) : Tables.get tbs' m = Tables.get tbs m := by
  rw [pgvFKStep] at h
  split at h
  · obtain rfl := Except.ok.inj h
    rfl
  · split at h
    · obtain rfl := Except.ok.inj h
      rfl
    · split at h
      · obtain rfl := Except.ok.inj h
        exact Tables.get_set_other _ _ _ _ hm
      · split at h
        · split at h
          · obtain rfl := Except.ok.inj h
            exact Tables.get_set_other _ _ _ _ hm
          · exact Except.noConfusion h
        · obtain rfl := Except.ok.inj h
          exact Tables.get_set_other _ _ _ _ hm

theorem pgvUniqueStep_get_other (tname : String) (tbs : Tables) (cd : ColumnSpec)
    (m : String) (hm : m ≠ tname) :
    Tables.get (pgvUniqueStep tname tbs cd) m = Tables.get tbs m := by
  rw [pgvUniqueStep]
  split
  · split
    · split
      · exact Tables.get_set_other _ _ _ _ hm
      · rfl
    · rfl
  · rfl

theorem pgvNullStep_get_other (tname : String) (tbs : Tables) (cd : ColumnSpec)
    (m : String) (hm : m ≠ tname) :
    Tables.get (pgvNullStep tname tbs cd) m = Tables.get tbs m := by
  rw [pgvNullStep]
  split
  · rfl
  · split
    · split
      · exact Tables.get_set_other _ _ _ _ hm
      · rfl
    · rfl

theorem pgvTable_get_other (tbs : Tables) (t : TableSpec) (tbs' : Tables)
    (h : pgvTable tbs t = Except.ok tbs') (m : String) (hm : m ≠ t.name) :
    Tables.get tbs' m = Tables.get tbs m := by
  rw [pgvTable] at h
  split at h
  · obtain rfl := Except.ok.inj h
    rfl
  · rw [except_map_ok] at h
    obtain ⟨tbs1, h1, hset⟩ := h
    subst hset
    have hfk : Tables.get tbs1 m = Tables.get tbs m := by
      refine foldlM_ok_inv (fun x => Tables.get x m = Tables.get tbs m) _ ?_
        t.columns tbs tbs1 h1 rfl
      intro b cd b' hp hstep
      rw [← hp]
      exact pgvFKStep_get_other t.name b cd b' hstep m hm
    have huniq : Tables.get (pgvUniquePass t.name t.columns tbs1) m
        = Tables.get tbs1 m := by
      refine foldl_inv_mem
        (fun x => Tables.get x m = Tables.get tbs1 m) t.columns _ ?_ tbs1 rfl
      intro b cd _ hp
      rw [pgvUniqueStep_get_other t.name b cd m hm, hp]
    have hnull : Tables.get (pgvNullPass t.name t.columns (pgvUniquePass t.name t.columns tbs1)) m
        = Tables.get (pgvUniquePass t.name t.columns tbs1) m := by
      refine foldl_inv_mem
        (fun x => Tables.get x m = Tables.get (pgvUniquePass t.name t.columns tbs1) m)
        t.columns _ ?_ _ rfl
      intro b cd _ hp
      rw [pgvNullStep_get_other t.name b cd m hm, hp]
    rw [hnull, huniq, hfk]

theorem pgvFKPass_inert (tname : String) (cols : List ColumnSpec) (tbs : Tables)
    (hin : ∀ c ∈ cols, c.foreign_key = none) :
    pgvFKPass tname cols tbs = Except.ok tbs := by
  rw [pgvFKPass]
  induction cols with
  | nil => rfl
  | cons cd cols ih =>
      rw [List.foldlM_cons]
      have h1 : pgvFKStep tname tbs cd = Except.ok tbs := by
        rw [pgvFKStep, hin cd (List.mem_cons_self _ _)]
      rw [h1]
      exact ih (fun c hc => hin c (List.mem_cons_of_mem _ hc))

theorem pgvUniquePass_inert (tname : String) (cols : List ColumnSpec) (tbs : Tables)
    (hin : ∀ c ∈ cols, c.unique = false) :
    pgvUniquePass tname cols tbs = tbs := by
  rw [pgvUniquePass]
  induction cols with
  | nil => rfl
  | cons cd cols ih =>
      rw [List.foldl_cons]
      have h1 : pgvUniqueStep tname tbs cd = tbs := by
        rw [pgvUniqueStep, hin cd (List.mem_cons_self _ _)]
        simp
      rw [h1]
      exact ih (fun c hc => hin c (List.mem_cons_of_mem _ hc))

theorem pgvNullPass_inert (tname : String) (cols : List ColumnSpec) (tbs : Tables)
    (hin : ∀ c ∈ cols, c.nullable = true) :
    pgvNullPass tname cols tbs = tbs := by
  rw [pgvNullPass]
  induction cols with
  | nil => rfl
  | cons cd cols ih =>
      rw [List.foldl_cons]
      have h1 : pgvNullStep tname tbs cd = tbs := by
        rw [pgvNullStep, hin cd (List.mem_cons_self _ _)]
        simp
      rw [h1]
      exact ih (fun c hc => hin c (List.mem_cons_of_mem _ hc))

/-- A spec table none of whose columns declare a foreign key, uniqueness or
non-nullability: the validator leaves the whole table dict untouched. -/
theorem pgvTable_inert (tbs : Tables) (p : TableSpec)
    (hin : ∀ c ∈ p.columns, c.foreign_key = none ∧ c.unique = false ∧ c.nullable = true) :
    pgvTable tbs p = Except.ok tbs := by
  rw [pgvTable]
  split
  · rfl
  · rw [pgvFKPass_inert p.name p.columns tbs (fun c hc => (hin c hc).1)]
    simp only [Except.map]
    rw [pgvUniquePass_inert p.name p.columns tbs (fun c hc => (hin c hc).2.1),
      pgvNullPass_inert p.name p.columns tbs (fun c hc => (hin c hc).2.2)]

theorem contains_true_iff (valid : List Value) (x : Value) :
    valid.contains x = true ↔ x ∈ valid := by
  simp

/-- Disjunctive characterization of one foreign-key validation step. -/
theorem pgvFKStep_cases (tname : String) (tbs : Tables) (cd : ColumnSpec) (tbs' : Tables)
    (h : pgvFKStep tname tbs cd = Except.ok tbs') :
    (cd.foreign_key = none ∧ tbs' = tbs) ∨
    ∃ fk, cd.foreign_key = some fk ∧
      ((Tables.get tbs tname = none ∧ tbs' = tbs) ∨
       ∃ df, Tables.get tbs tname = some df ∧
         ((Tables.get tbs fk.table = none ∧ tbs' = Tables.set tbs tname df) ∨
          ∃ parent, Tables.get tbs fk.table = some parent ∧
            ((fk.column ∉ parent.cols ∧ tbs' = Tables.set tbs tname df) ∨
             (fk.column ∈ parent.cols ∧ cd.name ∈ df.cols ∧
              tbs' = Tables.set tbs tname
                ⟨df.cols, df.rows.map (fun r =>
                  if (distinctNonNull (parent.col fk.column)).contains (Row.get r cd.name)
                  then r else Row.set r cd.name Value.null)⟩)))) := by
  rw [pgvFKStep] at h
  split at h
  · rename_i hfk
    obtain rfl := Except.ok.inj h
    exact Or.inl ⟨hfk, rfl⟩
  · rename_i fk hfk
    split at h
    · rename_i hget
      obtain rfl := Except.ok.inj h
      exact Or.inr ⟨fk, hfk, Or.inl ⟨hget, rfl⟩⟩
    · rename_i df hget
      split at h
      · rename_i hpar
        obtain rfl := Except.ok.inj h
        exact Or.inr ⟨fk, hfk, Or.inr ⟨df, hget, Or.inl ⟨hpar, rfl⟩⟩⟩
      · rename_i parent hpar
        split at h
        · rename_i hpc
          split at h
          · rename_i hcn
            obtain rfl := Except.ok.inj h
            exact Or.inr ⟨fk, hfk, Or.inr ⟨df, hget, Or.inr
              ⟨parent, hpar, Or.inr ⟨hpc, hcn, rfl⟩⟩⟩⟩
          · exact Except.noConfusion h
        · rename_i hpc
          obtain rfl := Except.ok.inj h
          exact Or.inr ⟨fk, hfk, Or.inr ⟨df, hget, Or.inr
            ⟨parent, hpar, Or.inl ⟨hpc, rfl⟩⟩⟩⟩

/-- Disjunctive characterization of one uniqueness validation step. -/
theorem pgvUniqueStep_cases (tname : String) (tbs : Tables) (cd : ColumnSpec) :
    pgvUniqueStep tname tbs cd = tbs ∨
    ∃ df, Tables.get tbs tname = some df ∧
      pgvUniqueStep tname tbs cd = Tables.set tbs tname (df.dedupBy cd.name) := by
  rw [pgvUniqueStep]
  split
  · split
    · rename_i df hget
      split
      · exact Or.inr ⟨df, hget, rfl⟩
      · exact Or.inl rfl
    · exact Or.inl rfl
  · exact Or.inl rfl

/-- Disjunctive characterization of one nullability validation step. -/
theorem pgvNullStep_cases (tname : String) (tbs : Tables) (cd : ColumnSpec) :
    pgvNullStep tname tbs cd = tbs ∨
    ∃ df, Tables.get tbs tname = some df ∧
      pgvNullStep tname tbs cd
        = Tables.set tbs tname (df.filterRows (fun r => Row.get r cd.name ≠ Value.null)) := by
  rw [pgvNullStep]
  split
  · exact Or.inl rfl
  · split
    · rename_i df hget
      split
      · exact Or.inr ⟨df, hget, rfl⟩
      · exact Or.inl rfl
    · exact Or.inl rfl

/-- The per-row foreign-key property of the rows of the entry `tname`. -/
def entryProp (tname : String) (c : String) (valid : List Value) (tbs : Tables) : Prop :=
  ∀ df, Tables.get tbs tname = some df → ∀ r ∈ df.rows,
    Row.get r c = Value.null ∨ Row.get r c ∈ valid

theorem pgvFKStep_establish (tname : String) (tbs : Tables) (cd : ColumnSpec)
    (fk : FKRef) (parent : DataFrame) (tbs' : Tables)
    (hfk : cd.foreign_key = some fk)
    (hpar : Tables.get tbs fk.table = some parent)
    (hpc : fk.column ∈ parent.cols)
    (h : pgvFKStep tname tbs cd = Except.ok tbs') :
    entryProp tname cd.name (distinctNonNull (parent.col fk.column)) tbs' := by
  rcases pgvFKStep_cases tname tbs cd tbs' h with ⟨hn, _⟩ | ⟨fk', hfk', hrest⟩
  · rw [hfk] at hn
    exact Option.noConfusion hn
  · rw [hfk] at hfk'
    obtain rfl := Option.some.inj hfk'
    rcases hrest with ⟨hget, rfl⟩ | ⟨df, hget, hrest⟩
    · intro df' hdf'
      rw [hget] at hdf'
      exact Option.noConfusion hdf'
    · rcases hrest with ⟨hpn, _⟩ | ⟨parent', hpar', hrest⟩
      · rw [hpar] at hpn
        exact Option.noConfusion hpn
      · rw [hpar] at hpar'
        obtain rfl := Option.some.inj hpar'
        rcases hrest with ⟨hnpc, _⟩ | ⟨_, hcn, rfl⟩
        · exact absurd hpc hnpc
        · intro df' hdf'
          rw [Tables.get_set_same] at hdf'
          obtain rfl := Option.some.inj hdf'
          intro r hr
          simp only [List.mem_map] at hr
          obtain ⟨r0, hr0, rfl⟩ := hr
          split
          · rename_i hcont
            exact Or.inr ((contains_true_iff _ _).mp hcont)
          · rw [Row.get_set_self]
            exact Or.inl rfl

theorem pgvFKStep_preserve (tname : String) (tbs : Tables) (cd : ColumnSpec)
    (tbs' : Tables) (h : pgvFKStep tname tbs cd = Except.ok tbs')
    (c : String) (valid : List Value) (hcne : c ≠ cd.name)
    (hP : entryProp tname c valid tbs) : entryProp tname c valid tbs' := by
  rcases pgvFKStep_cases tname tbs cd tbs' h with ⟨_, rfl⟩ | ⟨fk, _, hrest⟩
  · exact hP
  · rcases hrest with ⟨_, rfl⟩ | ⟨df, hget, hrest⟩
    · exact hP
    · rcases hrest with ⟨_, rfl⟩ | ⟨parent, hpar, hrest⟩
      · intro df' hdf'
        rw [Tables.get_set_same] at hdf'
        obtain rfl := Option.some.inj hdf'
        exact hP _ hget
      · rcases hrest with ⟨_, rfl⟩ | ⟨_, _, rfl⟩
        · intro df' hdf'
          rw [Tables.get_set_same] at hdf'
          obtain rfl := Option.some.inj hdf'
          exact hP _ hget
        · intro df' hdf'
          rw [Tables.get_set_same] at hdf'
          obtain rfl := Option.some.inj hdf'
          intro r hr
          simp only [List.mem_map] at hr
          obtain ⟨r0, hr0, rfl⟩ := hr
          split
          · exact hP df hget r0 hr0
          · rw [Row.get_set_ne r0 cd.name c Value.null hcne]
            exact hP df hget r0 hr0

theorem pgvUniqueStep_preserve (tname : String) (tbs : Tables) (cd : ColumnSpec)
    (c : String) (valid : List Value) (hP : entryProp tname c valid tbs) :
    entryProp tname c valid (pgvUniqueStep tname tbs cd) := by
  rcases pgvUniqueStep_cases tname tbs cd with heq | ⟨df, hget, heq⟩
  · rw [heq]
    exact hP
  · rw [heq]
    intro df' hdf'
    rw [Tables.get_set_same] at hdf'
    obtain rfl := Option.some.inj hdf'
    intro r hr
    exact hP df hget r (dedupRowsAux_subset cd.name df.rows [] r hr)

theorem pgvNullStep_preserve (tname : String) (tbs : Tables) (cd : ColumnSpec)
    (c : String) (valid : List Value) (hP : entryProp tname c valid tbs) :
    entryProp tname c valid (pgvNullStep tname tbs cd) := by
  rcases pgvNullStep_cases tname tbs cd with heq | ⟨df, hget, heq⟩
  · rw [heq]
    exact hP
  · rw [heq]
    intro df' hdf'
    rw [Tables.get_set_same] at hdf'
    obtain rfl := Option.some.inj hdf'
    intro r hr
    exact hP df hget r (List.mem_of_mem_filter hr)

/-- Processing the child's own table establishes the foreign-key property
for its declared column, relative to the parent frame read at processing
time (the parent must be a different table with the key column present). -/
theorem pgvTable_child (tbs : Tables) (t : TableSpec) (tbs' : Tables)
    (cd : ColumnSpec) (fk : FKRef) (parent : DataFrame)
    (hcd : cd ∈ t.columns) (hfk : cd.foreign_key = some fk)
    (hnodupC : (t.columns.map ColumnSpec.name).Nodup)
    (hne : fk.table ≠ t.name)
    (hpar : Tables.get tbs fk.table = some parent)
    (hpc : fk.column ∈ parent.cols)
    (h : pgvTable tbs t = Except.ok tbs') :
    entryProp t.name cd.name (distinctNonNull (parent.col fk.column)) tbs' := by
  rw [pgvTable] at h
  split at h
  · rename_i hget0
    obtain rfl := Except.ok.inj h
    intro df' hdf'
    rw [hget0] at hdf'
    exact Option.noConfusion hdf'
  · rw [except_map_ok] at h
    obtain ⟨tbs1, h1, hset⟩ := h
    subst hset
    obtain ⟨l1, l2, hsplit⟩ := List.append_of_mem hcd
    rw [pgvFKPass, hsplit, List.foldlM_append] at h1
    rw [except_bind_ok] at h1
    obtain ⟨b1, hb1, h1⟩ := h1
    rw [List.foldlM_cons, except_bind_ok] at h1
    obtain ⟨b2, hb2, h1⟩ := h1
    have hparb1 : Tables.get b1 fk.table = some parent :=
      foldlM_ok_inv (fun x => Tables.get x fk.table = some parent) _
        (fun b a b' hp hstep =>
          (pgvFKStep_get_other t.name b a b' hstep fk.table hne).trans hp)
        l1 tbs b1 hb1 hpar
    have hP2 : entryProp t.name cd.name (distinctNonNull (parent.col fk.column)) b2 :=
      pgvFKStep_establish t.name b1 cd fk parent b2 hfk hparb1 hpc hb2
    have hl2ne : ∀ cd2 ∈ l2, cd.name ≠ cd2.name := by
      intro cd2 h2 hcontra
      have hnd := hnodupC
      rw [hsplit, List.map_append, List.map_cons] at hnd
      have hnotin : cd.name ∉ l2.map ColumnSpec.name :=
        (List.nodup_cons.mp (List.nodup_append.mp hnd).2.1).1
      exact hnotin (hcontra ▸ List.mem_map_of_mem ColumnSpec.name h2)
    have hP1 : entryProp t.name cd.name (distinctNonNull (parent.col fk.column)) tbs1 :=
      foldlM_ok_inv_mem _ l2 _
        (fun b a b' ha hp hstep =>
          pgvFKStep_preserve t.name b a b' hstep cd.name _ (hl2ne a ha) hp)
        b2 tbs1 h1 hP2
    have hPu : entryProp t.name cd.name (distinctNonNull (parent.col fk.column))
        (pgvUniquePass t.name t.columns tbs1) := by
      rw [pgvUniquePass]
      exact foldl_inv_mem _ t.columns _
        (fun b a _ hp => pgvUniqueStep_preserve t.name b a _ _ hp) tbs1 hP1
    rw [pgvNullPass]
    exact foldl_inv_mem _ t.columns _
      (fun b a _ hp => pgvNullStep_preserve t.name b a _ _ hp) _ hPu

/-- C1 (amended): after `post_generation_validate`, a foreign-key column's
non-null values all lie in the referenced parent key column's distinct
non-null value set at final state, provided the validator itself does not
modify the parent after the child's pass: the parent is a different table,
it exists with its key column when validation starts, and every spec table
named like it carries no foreign-key, unique, or non-null declarations (so
its uniqueness/nullability passes cannot drop parent rows).  In general the
claimed invariant fails — see the counterexample — because a parent
processed after the child can lose key values to its own uniqueness or
nullability passes. -/
theorem post_validate_fk_consistency_amended
    (s : Schema) (tbs tbs' : Tables) (t : TableSpec) (cd : ColumnSpec) (fk : FKRef)
    (parent : DataFrame)
    (hrun : post_generation_validate tbs s = Except.ok tbs')
    (ht : t ∈ s.tables) (hcd : cd ∈ t.columns) (hfk : cd.foreign_key = some fk)
    (hne : fk.table ≠ t.name)
    (hnodupT : (s.tables.map TableSpec.name).Nodup)
    (hnodupC : (t.columns.map ColumnSpec.name).Nodup)
    (hinert : ∀ p ∈ s.tables, p.name = fk.table →
      ∀ c ∈ p.columns, c.foreign_key = none ∧ c.unique = false ∧ c.nullable = true)
    (hpar : Tables.get tbs fk.table = some parent)
    (hpc : fk.column ∈ parent.cols) :
    Tables.get tbs' fk.table = some parent ∧
    ∀ df', Tables.get tbs' t.name = some df' → ∀ r ∈ df'.rows,
      Row.get r cd.name = Value.null ∨
        Row.get r cd.name ∈ distinctNonNull (parent.col fk.column) := by
  obtain ⟨L1, L2, hsplitT⟩ := List.append_of_mem ht
  have hnames : ∀ u, (u ∈ L1 ∨ u ∈ L2) → u.name ≠ t.name := by
    intro u hu hcontra
    have hnd := hnodupT
    rw [hsplitT, List.map_append, List.map_cons] at hnd
    obtain ⟨hnd1, hnd2, hdisj⟩ := List.nodup_append.mp hnd
    rcases hu with hu | hu
    · exact hdisj (hcontra ▸ List.mem_map_of_mem TableSpec.name hu)
        (List.mem_cons_self _ _)
    · exact (List.nodup_cons.mp hnd2).1
        (hcontra ▸ List.mem_map_of_mem TableSpec.name hu)
  have hmemS : ∀ u, (u ∈ L1 ∨ u ∈ L2) → u ∈ s.tables := by
    intro u hu
    rw [hsplitT]
    rcases hu with hu | hu
    · exact List.mem_append_left _ hu
    · exact List.mem_append_right _ (List.mem_cons_of_mem _ hu)
  rw [post_generation_validate, hsplitT, List.foldlM_append] at hrun
  rw [except_bind_ok] at hrun
  obtain ⟨m1, hm1, hrun⟩ := hrun
  rw [List.foldlM_cons, except_bind_ok] at hrun
  obtain ⟨m2, hm2, hrun⟩ := hrun
  have hstep1 : ∀ b u b', u ∈ L1 → Tables.get b fk.table = some parent →
      pgvTable b u = Except.ok b' → Tables.get b' fk.table = some parent := by
    intro b u b' hu hp hs
    by_cases hq : u.name = fk.table
    · have hid : pgvTable b u = Except.ok b :=
        pgvTable_inert b u (hinert u (hmemS u (Or.inl hu)) hq)
      obtain rfl := Except.ok.inj (hid.symm.trans hs)
      exact hp
    · rw [pgvTable_get_other b u b' hs fk.table (fun hx => hq hx.symm)]
      exact hp
  have hpm1 : Tables.get m1 fk.table = some parent :=
    foldlM_ok_inv_mem (fun x => Tables.get x fk.table = some parent) L1 pgvTable
      (fun b a b' ha hp hs => hstep1 b a b' ha hp hs) tbs m1 hm1 hpar
  have hP2 : entryProp t.name cd.name (distinctNonNull (parent.col fk.column)) m2 :=
    pgvTable_child m1 t m2 cd fk parent hcd hfk hnodupC hne hpm1 hpc hm2
  have hpm2 : Tables.get m2 fk.table = some parent := by
    rw [pgvTable_get_other m1 t m2 hm2 fk.table hne]
    exact hpm1
  have hfinal := foldlM_ok_inv_mem
    (fun x => Tables.get x fk.table = some parent ∧
      entryProp t.name cd.name (distinctNonNull (parent.col fk.column)) x)
    L2 pgvTable ?_ m2 tbs' hrun ⟨hpm2, hP2⟩
  · exact ⟨hfinal.1, hfinal.2⟩
  · intro b u b' hu hp hs
    by_cases hq : u.name = fk.table
    · have hid : pgvTable b u = Except.ok b :=
        pgvTable_inert b u (hinert u (hmemS u (Or.inr hu)) hq)
      obtain rfl := Except.ok.inj (hid.symm.trans hs)
      exact hp
    · refine ⟨?_, ?_⟩
      · rw [pgvTable_get_other b u b' hs fk.table (fun hx => hq hx.symm)]
        exact hp.1
      · intro df' hdf'
        rw [pgvTable_get_other b u b' hs t.name
          (Ne.symm (hnames u (Or.inr hu)))] at hdf'
        exact hp.2 df' hdf'

/-! Lemmas for the foreign-key assigner and constraint semantics. -/

theorem npClip_bounds (x mn mx : Int) (h : mn ≤ mx) :
    mn ≤ npClip x mn mx ∧ npClip x mn mx ≤ mx := by
  unfold npClip
  omega

theorem setColRows_mem_val (c : String) :
    ∀ (rows : List Row) (vs : List Value), rows.length = vs.length →
      ∀ r ∈ setColRows c rows vs, ∃ v ∈ vs, Row.get r c = v := by
  intro rows
  induction rows with
  | nil => intro vs _ r hr; simp [setColRows] at hr
  | cons r0 rs ih =>
      intro vs hlen r hr
      cases vs with
      | nil => simp at hlen
      | cons v vs =>
          simp only [setColRows, List.mem_cons] at hr
          rcases hr with rfl | hr
          · exact ⟨v, List.mem_cons_self _ _, Row.get_set_self r0 c v⟩
          · obtain ⟨w, hw, hgw⟩ := ih vs (by simpa using hlen) r hr
            exact ⟨w, List.mem_cons_of_mem _ hw, hgw⟩

theorem setColRows_map_get_self (c : String) :
    ∀ (rows : List Row) (vs : List Value), vs.length = rows.length →
      (setColRows c rows vs).map (fun r => Row.get r c) = vs := by
  intro rows
  induction rows with
  | nil =>
      intro vs h
      rw [List.length_nil, List.length_eq_zero] at h
      simp [h, setColRows]
  | cons r rs ih =>
      intro vs h
      cases vs with
      | nil => simp at h
      | cons v vs =>
          simp only [setColRows, List.map_cons, Row.get_set_self]
          rw [ih vs (by simpa using h)]

theorem setCol_col_self (df : DataFrame) (c : String) (vs : List Value)
    (h : vs.length = df.rows.length) : (df.setCol c vs).col c = vs := by
  rw [DataFrame.setCol, DataFrame.col]
  exact setColRows_map_get_self c df.rows vs h

theorem assignRowsCond_map_get_ne (c c' : String) (ids : List Value)
    (choice : Nat → Nat) (h : c' ≠ c) :
    ∀ (k : Nat) (pairs : List (Row × Bool)),
      (assignRowsCond c ids choice k pairs).map (fun r => Row.get r c')
        = pairs.map (fun p => Row.get p.1 c') := by
  intro k pairs
  induction pairs generalizing k with
  | nil => simp [assignRowsCond]
  | cons p rest ih =>
      obtain ⟨r, b⟩ := p
      cases b <;>
        simp [assignRowsCond, Row.get_set_ne _ _ _ _ h, ih]

theorem assignRowsCond_zip_prop (c : String) (ids : List Value) (choice : Nat → Nat)
    (hids : ids ≠ []) (f : Row → Bool) :
    ∀ (k : Nat) (rows : List Row),
      ∀ pr ∈ (assignRowsCond c ids choice k (rows.map (fun r => (r, f r)))).zip rows,
        (f pr.2 = true → Row.get pr.1 c ∈ ids) ∧
        (f pr.2 = false → Row.get pr.1 c = Value.null) := by
  intro k rows
  induction rows generalizing k with
  | nil => simp [assignRowsCond]
  | cons r rs ih =>
      cases hfr : f r with
      | true =>
          simp only [List.map_cons, hfr, assignRowsCond, List.zip_cons_cons, List.mem_cons]
          intro pr hpr
          rcases hpr with rfl | hpr
          · refine ⟨fun _ => ?_, fun hc => ?_⟩
            · rw [Row.get_set_self]
              exact sampleIds_mem ids choice k hids
            · rw [hfr] at hc
              exact Bool.noConfusion hc
          · exact ih (k + 1) pr hpr
      | false =>
          simp only [List.map_cons, hfr, assignRowsCond, List.zip_cons_cons, List.mem_cons]
          intro pr hpr
          rcases hpr with rfl | hpr
          · refine ⟨fun hc => ?_, fun _ => Row.get_set_self r c Value.null⟩
            rw [hfr] at hc
            exact Bool.noConfusion hc
          · exact ih k pr hpr

theorem dedupRowsAux_eq_specUnique (c : String) :
    ∀ (rows : List Row) (seen : List Value),
      dedupRowsAux c rows seen
        = specUnique c (rows.filter (fun r => Row.get r c ∉ seen)) := by
  intro rows
  induction rows with
  | nil => intro seen; simp [dedupRowsAux, specUnique]
  | cons r rs ih =>
      intro seen
      by_cases h : Row.get r c ∈ seen
      · rw [dedupRowsAux, if_pos h]
        rw [show (r :: rs).filter (fun x => Row.get x c ∉ seen)
            = rs.filter (fun x => Row.get x c ∉ seen) from by
          simp [List.filter_cons, h]]
        exact ih seen
      · rw [dedupRowsAux, if_neg h]
        rw [show (r :: rs).filter (fun x => Row.get x c ∉ seen)
            = r :: rs.filter (fun x => Row.get x c ∉ seen) from by
          simp [List.filter_cons, h]]
        simp only [specUnique]
        congr 1
        rw [List.filter_filter, ih (Row.get r c :: seen)]
        congr 1
        apply List.filter_congr
        intro x _
        simp [List.mem_cons, not_or, and_comm]

theorem dedupBy_rows_eq_specUnique (df : DataFrame) (c : String) :
    (df.dedupBy c).rows = specUnique c df.rows := by
  rw [DataFrame.dedupBy]
  simp only
  rw [dedupRowsAux_eq_specUnique]
  congr 1
  simp

/-! The claims.  (The C1 theorem `post_validate_fk_consistency_amended`
appears above, with the validator analysis.) -/

/-- C1 counterexample: with the child table listed before its parent and a
unique constraint on another parent column, the validator's uniqueness pass
drops the parent row `id = 2` after the child's foreign-key pass ran, so
the final tables keep a non-null `Child.pid = 2` that is not in the final
parent key set — refuting the claim as stated. -/
theorem post_validate_fk_consistency_cex :
    post_generation_validate c1cexTables c1cexSchema = Except.ok c1cexOut ∧
    fkConsistentB c1cexSchema c1cexOut = false := by decide

/-- C1 witness: the amended theorem applied to a two-table dict whose inert
parent precedes the child. -/
theorem post_validate_fk_consistency_amended_witness :
    Tables.get c1witOut "Parent" = some c1witParentDf ∧
    ∀ df', Tables.get c1witOut "Child" = some df' → ∀ r ∈ df'.rows,
      Row.get r "pid" = Value.null ∨
        Row.get r "pid" ∈ distinctNonNull (c1witParentDf.col "id") :=
  post_validate_fk_consistency_amended c1witSchema c1witTables c1witOut
    c1witChildSpec c1witChildCd ⟨"Parent", "id"⟩ c1witParentDf
    (by decide)
    (List.mem_cons_of_mem _ (List.mem_cons_self _ _))
    (List.mem_cons_self _ _)
    rfl
    (by decide)
    (by decide)
    (by decide)
    (by decide)
    (by decide)
    (by decide)

/-- C2: on the acyclic chain schema (B references A, C references B) the
analyzer returns the order A, B, C, which places every table after all
tables it references; on the mutually-referencing schema both the analyzer
and the orchestrator — which runs it before producing any table — fail
with the cyclic-dependency error, so no tables are generated. -/
theorem dependency_order_and_cycle_abort :
    analyze_dependencies chainSchema = Except.ok ["A", "B", "C"] ∧
    (∀ e ∈ schemaEdges chainSchema,
      (["A", "B", "C"].indexOf e.1 < ["A", "B", "C"].indexOf e.2)) ∧
    analyze_dependencies cycSchema = Except.error cyclicMsg ∧
    generate_scenario_data oracle0 cycSchema = Except.error cyclicMsg := by decide

/-- C4 counterexample: with step 0 the sequential generator raises the
Python `range` ValueError instead of returning the constant list, refuting
the claim for every step value. -/
theorem sequential_step_zero_cex :
    generate_column oracle0 { name := "id", distribution := some (seqDist 1 0) } 2 none
      = Except.error "range() arg 3 must not be zero" ∧
    ¬ (generate_column oracle0 { name := "id", distribution := some (seqDist 1 0) } 2 none
        = Except.ok [Value.int 1, Value.int 1]) := by decide

/-- C6 counterexample: when both the vectorized and the per-row evaluation
of an SCM expression fail, `generate_causal_by_scm` propagates the error
and aborts — whereas the derived-column evaluator swallows the same double
failure into an all-null column — refuting "no expression failure ever
aborts generation". -/
theorem causal_rowfail_aborts_cex :
    generate_causal_by_scm c6df [("y", some exprBoom)] = Except.error "boom" ∧
    evaluate_derived c6df [("y", some exprBoom)]
      = c6df.setCol "y" [Value.null] := by decide

/-- C7: the pipeline (claim's cited call site) invokes `generate_column`
without `table_data`, so the conditional `score` column comes out entirely
null even though its `on` column matched a case in every row; calling the
generator with the sibling data — as the claim describes — produces the
case's values.  The generated `status` frame and the matching case witness
the divergence. -/
theorem conditional_pipeline_nulls :
    generate_scenario_data oracle0 c7Schema = Except.ok [("T", c7outT)] ∧
    c7outT.col "score" = [Value.null, Value.null] ∧
    c7outT.col "status" = [Value.str "a", Value.str "a"] ∧
    (caseLookup c7condD.cases (Value.str "a")).isSome = true ∧
    generate_column oracle0 c7scoreSpec 2 (some c7statusDf)
      = Except.ok [Value.int 99, Value.int 99] := by decide

/-- C8 counterexample: pattern `a` against value `"ab"` — the string does
not fully match the pattern, yet the enforcer keeps the row, because
pandas `str.match` anchors only at the start; refuting the claimed
full-match semantics. -/
theorem regex_fullmatch_cex :
    enforce_constraints c8df [Constraint.regex "x" (some c8pat)] = c8df ∧
    Regex.matchFull c8pat ("ab".toList) = false ∧
    Regex.matchStart c8pat ("ab".toList) = true := by decide

/-- C3: row counts through the pipeline — base column generation returns
exactly the requested number of values (when it returns at all), constraint
enforcement never adds rows, foreign-key assignment preserves the child's
row count, the post-generation validator only removes rows from existing
entries, and every table of the validated pipeline output has at most the
row count its spec requested. -/
theorem row_count_invariants :
    (∀ (o : Oracle) (cd : ColumnSpec) (n : Nat) (vs : List Value),
      generate_column o cd n none = Except.ok vs → vs.length = n) ∧
    (∀ (df : DataFrame) (cs : List Constraint),
      (enforce_constraints df cs).rows.length ≤ df.rows.length) ∧
    (∀ (child : DataFrame) (ccol : String) (parent? : Option DataFrame)
      (pcol : String) (cond : Option FKCond) (choice : Nat → Nat) (out : DataFrame),
      assign_foreign_key child ccol parent? pcol cond choice = Except.ok out →
      out.rows.length = child.rows.length) ∧
    (∀ (tables : Tables) (s : Schema) (tables' : Tables),
      post_generation_validate tables s = Except.ok tables' →
      ∀ name df', Tables.get tables' name = some df' →
        ∃ df, Tables.get tables name = some df ∧ df'.rows.length ≤ df.rows.length) ∧
    (∀ (o : Oracle) (s : Schema) (tbs tbs' : Tables),
      generate_scenario_data o s = Except.ok tbs →
      post_generation_validate tbs s = Except.ok tbs' →
      ∀ name df, Tables.get tbs' name = some df →
        ∃ t ∈ s.tables, t.name = name ∧ df.rows.length ≤ t.rows) := by
  refine ⟨?_, ?_, ?_, ?_, ?_⟩
  · exact fun o cd n vs h => generate_column_none_ok_length o cd n vs h
  · exact fun df cs => enforce_constraints_length_le df cs
  · exact fun child ccol parent? pcol cond choice out h =>
      assign_foreign_key_ok_length child ccol parent? pcol cond choice out h
  · exact fun tables s tables' h => post_generation_validate_ok_le tables s tables' h
  · intro o s tbs tbs' h1 h2
    exact tableLenBound_of_le s tbs tbs' (generate_scenario_data_bound o s tbs h1)
      (post_generation_validate_ok_le tbs s tbs' h2)

/-- C3 witness: the theorem applied on the chain schema's pipeline output
and to a concrete sequential column of three rows. -/
theorem row_count_invariants_witness :
    (∃ t ∈ chainSchema.tables, t.name = "A" ∧ c3aDf.rows.length ≤ t.rows) ∧
    ([Value.int 1, Value.int 2, Value.int 3] : List Value).length = 3 :=
  ⟨row_count_invariants.2.2.2.2 oracle0 chainSchema c3genTs c3valTs
      (by decide) (by decide) "A" c3aDf (by decide),
   row_count_invariants.1 oracle0 { name := "id", distribution := some (seqDist 1 1) } 3
      [Value.int 1, Value.int 2, Value.int 3] (by decide)⟩

/-- C9: an integer column with a normal distribution and both bounds
yields, for every oracle, exactly the clamped rounded draws — `n` values,
each (when the bounds are ordered) an integer inside `[min, max]`; draws
are rounded to whole numbers and pulled to the nearest boundary rather
than redrawn. -/
theorem normal_clamp_bounds (o : Oracle) (mean stddev : ℚ) (mn mx : Int) (n : Nat) :
    generate_column o (c9colSpec mean stddev mn mx) n none
      = Except.ok ((List.range n).map (fun i =>
          Value.int (npClip (roundHalfEven (o.normalDraw mean stddev i)) mn mx))) ∧
    ((List.range n).map (fun i =>
        Value.int (npClip (roundHalfEven (o.normalDraw mean stddev i)) mn mx))).length = n ∧
    (mn ≤ mx →
      ∀ v ∈ (List.range n).map (fun i =>
          Value.int (npClip (roundHalfEven (o.normalDraw mean stddev i)) mn mx)),
        ∃ j : Int, v = Value.int j ∧ mn ≤ j ∧ j ≤ mx) := by
  refine ⟨rfl, by simp, fun hle v hv => ?_⟩
  simp only [List.mem_map] at hv
  obtain ⟨i, _, rfl⟩ := hv
  exact ⟨_, rfl, (npClip_bounds _ mn mx hle).1, (npClip_bounds _ mn mx hle).2⟩

/-- C9 witness: fifty-row-style scenario in miniature — bounds 18 and 90,
an oracle whose draws land at -499.5, 500.5, 1500.5. -/
theorem normal_clamp_bounds_witness :
    (18 : Int) ≤ 90 ∧
    ∀ v ∈ (List.range 3).map (fun i =>
        Value.int (npClip (roundHalfEven (oracleWild.normalDraw 40 10 i)) 18 90)),
      ∃ j : Int, v = Value.int j ∧ 18 ≤ j ∧ j ≤ 90 :=
  ⟨by decide, (normal_clamp_bounds oracleWild 40 10 18 90 3).2.2 (by decide)⟩

/-- C10: foreign-key assignment is frame-preserving — whenever it returns
a table, that table has the same row count as the input child and every
column other than the designated foreign-key column is value-for-value
identical in row order (the source also copies the child before writing,
so the caller's frame object is untouched; in this pure embedding the
input is immutable by construction). -/
theorem assign_fk_frame (child : DataFrame) (ccol : String)
    (parent? : Option DataFrame) (pcol : String) (cond : Option FKCond)
    (choice : Nat → Nat) (out : DataFrame)
    (h : assign_foreign_key child ccol parent? pcol cond choice = Except.ok out) :
    out.rows.length = child.rows.length ∧
    ∀ c, c ≠ ccol → out.col c = child.col c := by
  refine ⟨assign_foreign_key_ok_length child ccol parent? pcol cond choice out h, ?_⟩
  intro c hc
  cases parent? with
  | none => exact Except.noConfusion h
  | some parent =>
      rw [assign_foreign_key] at h
      by_cases hp : pcol ∈ parent.cols
      · rw [if_pos hp] at h
        by_cases hids : (distinctNonNull (parent.col pcol)).isEmpty
        · rw [if_pos hids] at h
          exact Except.noConfusion h
        · rw [if_neg hids] at h
          split at h
          · obtain rfl := (Except.ok.inj h).symm
            exact setCol_col_ne child ccol c _ hc
          · obtain rfl := (Except.ok.inj h).symm
            show List.map _ _ = _
            rw [assignRowsCond_map_get_ne ccol c _ _ hc, List.map_map]
            rfl
          · exact Except.noConfusion h
          · split at h
            · obtain rfl := (Except.ok.inj h).symm
              show List.map _ _ = _
              rw [assignRowsCond_map_get_ne ccol c _ _ hc, List.map_map]
              rfl
            · exact Except.noConfusion h
      · rw [if_neg hp] at h
        exact Except.noConfusion h

/-- C10 witness: the frame theorem at a concrete one-row child. -/
theorem assign_fk_frame_witness :
    c5outNone.rows.length = c5child.rows.length ∧
    ∀ c, c ≠ "fk" → c5outNone.col c = c5child.col c :=
  assign_fk_frame c5child "fk" (some c5parent) "id" none (fun _ => 0) c5outNone
    (by decide)

/-- C4 (amended): for every NONZERO step `k` the sequential strategy
deterministically returns `[s, s+k, …, s+(n-1)k]` (the result does not
depend on the oracle), and when the streaming counter is advanced by
`main.py`'s update the second batch of `n` rows starts at `s + n·k`.  For
`k = 0` Python `range` raises — see the counterexample — so the claim's
"for every step" fails. -/
theorem sequential_exact_amended (o : Oracle) (nm : String) (s k : Int) (n : Nat)
    (hk : k ≠ 0) :
    generate_column o { name := nm, distribution := some (seqDist s k) } n none
      = Except.ok ((List.range n).map (fun (i : Nat) => Value.int (s + k * i))) ∧
    (0 < n →
      generate_column o
        { name := nm, distribution := some (seqDist (streamAdvanceSequential s k n) k) }
        n none
        = Except.ok ((List.range n).map (fun (i : Nat) =>
            Value.int (streamAdvanceSequential s k n + k * i))) ∧
      ((List.range n).map (fun (i : Nat) =>
          Value.int (streamAdvanceSequential s k n + k * i))).head?
        = some (Value.int (s + n * k))) := by
  have hgen : ∀ (s' : Int),
      generate_column o { name := nm, distribution := some (seqDist s' k) } n none
        = Except.ok ((List.range n).map (fun (i : Nat) => Value.int (s' + k * i))) := by
    intro s'
    have h0 : generate_column o { name := nm, distribution := some (seqDist s' k) } n none
        = genSequential (seqDist s' k) n := rfl
    have h1 : genSequential (seqDist s' k) n
        = (pyRange s' (s' + k * n) k).map (List.map Value.int) := rfl
    rw [h0, h1, pyRange_exact s' k n hk]
    simp [Except.map, List.map_map, Function.comp]
  refine ⟨hgen s, fun hn => ⟨hgen (streamAdvanceSequential s k n), ?_⟩⟩
  cases n with
  | zero => exact absurd hn (by omega)
  | succ m =>
      rw [List.range_succ_eq_map, List.map_cons]
      simp only [List.head?_cons, Option.some.injEq, Value.int.injEq]
      rw [streamAdvanceSequential]
      push_cast
      ring

/-- C4 witness: step 3 from start 2 over 4 rows, plus the second streaming
batch starting at 2 + 4·3 = 14. -/
theorem sequential_exact_amended_witness :
    generate_column oracle0 { name := "id", distribution := some (seqDist 2 3) } 4 none
      = Except.ok [Value.int 2, Value.int 5, Value.int 8, Value.int 11] ∧
    ∃ rest,
      generate_column oracle0
        { name := "id", distribution := some (seqDist (streamAdvanceSequential 2 3 4) 3) }
        4 none
        = Except.ok (Value.int 14 :: rest) := by
  have h := sequential_exact_amended oracle0 "id" 2 3 4 (by decide)
  simp only [Nat.cast_ofNat] at h
  constructor
  · rw [h.1]
    rfl
  · refine ⟨[Value.int 17, Value.int 20, Value.int 23], ?_⟩
    rw [(h.2 (by decide)).1]
    rfl

/-- C5 (counterexample): a dict condition without a `col` key makes
`assign_foreign_key` raise even though the parent table exists, the parent
column is present, and it holds a non-null value — so the claim's
"exactly when" enumeration of error causes is incomplete. -/
theorem assign_fk_error_iff_cex :
    assign_foreign_key c5child "fk" (some c5parent) "id"
        (some (FKCond.dict none (Value.int 1))) (fun _ => 0)
      = Except.error "Condition dict must have a 'col' key" ∧
    some c5parent ≠ (none : Option DataFrame) ∧
    "id" ∈ c5parent.cols ∧
    distinctNonNull (c5parent.col "id") ≠ [] := by decide

/-- C5 (amended): `assign_foreign_key` errors exactly under `fkErrCond`
(missing parent, absent parent column, no non-null parent key, a dict
condition without a `col` entry, or a dict condition naming an absent
child column).  On success: with no condition every child row's FK cell is
one of the parent column's distinct non-null values; with a predicate or
dict condition, rows satisfying it get a sampled parent value and rows
failing it get null. -/
theorem assign_fk_behavior_amended (child : DataFrame) (child_col : String)
    (parent? : Option DataFrame) (parent_col : String)
    (condition : Option FKCond) (choice : Nat → Nat) :
    ((∃ m, assign_foreign_key child child_col parent? parent_col condition choice
        = Except.error m) ↔ fkErrCond child parent? parent_col condition) ∧
    (∀ parent df', parent? = some parent →
      assign_foreign_key child child_col parent? parent_col condition choice
        = Except.ok df' →
      (condition = none →
        ∀ r ∈ df'.rows,
          Row.get r child_col ∈ distinctNonNull (parent.col parent_col)) ∧
      (∀ f, condition = some (FKCond.pred f) →
        ∀ pr ∈ df'.rows.zip child.rows,
          (f pr.2 = true →
            Row.get pr.1 child_col ∈ distinctNonNull (parent.col parent_col)) ∧
          (f pr.2 = false → Row.get pr.1 child_col = Value.null)) ∧
      (∀ cc cv, condition = some (FKCond.dict (some cc) cv) →
        ∀ pr ∈ df'.rows.zip child.rows,
          (valueEqPandas (Row.get pr.2 cc) cv = true →
            Row.get pr.1 child_col ∈ distinctNonNull (parent.col parent_col)) ∧
          (valueEqPandas (Row.get pr.2 cc) cv = false →
            Row.get pr.1 child_col = Value.null))) := by
  constructor
  · constructor
    · rintro ⟨m, hm⟩
      cases parent? with
      | none => exact Or.inl rfl
      | some p =>
          rw [assign_foreign_key] at hm
          by_cases hpc : parent_col ∈ p.cols
          · rw [if_pos hpc] at hm
            by_cases hids : (distinctNonNull (p.col parent_col)).isEmpty
            · refine Or.inr (Or.inl ⟨p, rfl, Or.inr ?_⟩)
              simpa using hids
            · rw [if_neg hids] at hm
              split at hm
              · exact Except.noConfusion hm
              · exact Except.noConfusion hm
              · rename_i v
                exact Or.inr (Or.inr (Or.inl ⟨v, rfl⟩))
              · rename_i cc cv
                split at hm
                · exact Except.noConfusion hm
                · rename_i hcc
                  exact Or.inr (Or.inr (Or.inr ⟨cc, cv, rfl, hcc⟩))
          · exact Or.inr (Or.inl ⟨p, rfl, Or.inl hpc⟩)
    · intro h
      rcases h with hnone | ⟨p, hp, hbad⟩ | ⟨v, hc⟩ | ⟨cc, cv, hc, hcc⟩
      · subst hnone
        exact ⟨"Parent data must contain parent_col", rfl⟩
      · subst hp
        rcases hbad with hpc | hids
        · refine ⟨"Parent data must contain parent_col", ?_⟩
          rw [assign_foreign_key, if_neg hpc]
        · by_cases hpc : parent_col ∈ p.cols
          · refine ⟨"No parent keys to sample from", ?_⟩
            rw [assign_foreign_key, if_pos hpc, if_pos (by simp [hids])]
          · refine ⟨"Parent data must contain parent_col", ?_⟩
            rw [assign_foreign_key, if_neg hpc]
      · subst hc
        cases parent? with
        | none => exact ⟨"Parent data must contain parent_col", rfl⟩
        | some p =>
            by_cases hpc : parent_col ∈ p.cols
            · rw [assign_foreign_key, if_pos hpc]
              by_cases hids : (distinctNonNull (p.col parent_col)).isEmpty
              · rw [if_pos hids]
                exact ⟨_, rfl⟩
              · rw [if_neg hids]
                exact ⟨_, rfl⟩
            · rw [assign_foreign_key, if_neg hpc]
              exact ⟨_, rfl⟩
      · subst hc
        cases parent? with
        | none => exact ⟨"Parent data must contain parent_col", rfl⟩
        | some p =>
            by_cases hpc : parent_col ∈ p.cols
            · rw [assign_foreign_key, if_pos hpc]
              by_cases hids : (distinctNonNull (p.col parent_col)).isEmpty
              · rw [if_pos hids]
                exact ⟨_, rfl⟩
              · rw [if_neg hids]
                exact ⟨_, if_neg hcc⟩
            · rw [assign_foreign_key, if_neg hpc]
              exact ⟨_, rfl⟩
  · intro parent df' hp hok
    subst hp
    rw [assign_foreign_key] at hok
    by_cases hpc : parent_col ∈ parent.cols
    · rw [if_pos hpc] at hok
      by_cases hids0 : (distinctNonNull (parent.col parent_col)).isEmpty
      · rw [if_pos hids0] at hok
        exact Except.noConfusion hok
      · rw [if_neg hids0] at hok
        have hids : distinctNonNull (parent.col parent_col) ≠ [] := by
          intro hc
          rw [hc] at hids0
          exact hids0 rfl
        split at hok
        · obtain rfl := Except.ok.inj hok
          refine ⟨fun _ => ?_, fun f hf => Option.noConfusion hf,
            fun cc cv hcv => Option.noConfusion hcv⟩
          intro r hr
          have hlen : child.rows.length
              = ((List.range child.rows.length).map
                  (sampleIds (distinctNonNull (parent.col parent_col)) choice)).length := by
            simp
          obtain ⟨v, hv, hgv⟩ := setColRows_mem_val child_col child.rows _ hlen r hr
          obtain ⟨i, _, rfl⟩ := List.mem_map.mp hv
          rw [hgv]
          exact sampleIds_mem _ choice i hids
        · rename_i f0
          obtain rfl := Except.ok.inj hok
          refine ⟨fun hc => Option.noConfusion hc, fun f hf => ?_,
            fun cc cv hcv => FKCond.noConfusion (Option.some.inj hcv)⟩
          have hff : f0 = f := by
            have h1 := Option.some.inj hf
            injection h1
          subst hff
          exact fun pr hpr =>
            assignRowsCond_zip_prop child_col _ choice hids f0 0 child.rows pr hpr
        · exact Except.noConfusion hok
        · rename_i cc0 cv0
          split at hok
          · rename_i hcc0
            obtain rfl := Except.ok.inj hok
            refine ⟨fun hc => Option.noConfusion hc,
              fun f hf => FKCond.noConfusion (Option.some.inj hf),
              fun cc cv hcv => ?_⟩
            have h1 := Option.some.inj hcv
            have hccol : some cc0 = some cc := by injection h1
            have hcveq : cv0 = cv := by injection h1
            obtain rfl := Option.some.inj hccol
            subst hcveq
            exact fun pr hpr =>
              assignRowsCond_zip_prop child_col _ choice hids
                (fun r => valueEqPandas (Row.get r cc0) cv0) 0 child.rows pr hpr
          · exact Except.noConfusion hok
    · rw [if_neg hpc] at hok
      exact Except.noConfusion hok

/-- C5 witness: a missing parent errors, and on the concrete
parent/child pair every assigned FK value is a distinct non-null parent
key. -/
theorem assign_fk_behavior_amended_witness :
    (∃ m, assign_foreign_key c5child "fk" none "id" none (fun _ => 0)
        = Except.error m) ∧
    (∀ r ∈ c5outNone.rows, Row.get r "fk" ∈ distinctNonNull (c5parent.col "id")) := by
  constructor
  · exact (assign_fk_behavior_amended c5child "fk" none "id" none
      (fun _ => 0)).1.mpr (Or.inl rfl)
  · intro r hr
    exact ((assign_fk_behavior_amended c5child "fk" (some c5parent) "id" none
      (fun _ => 0)).2 c5parent c5outNone rfl (by decide)).1 rfl r hr

/-- C6 (amended): when vectorised evaluation of an expression fails, both
evaluators fall back to row-wise evaluation; if that succeeds, both set the
target column to the row-wise values.  If row-wise evaluation ALSO fails,
`evaluate_derived` sets the column to all-missing and continues, but
`generate_causal_by_scm` propagates the row error and aborts — so the
claim's "no expression failure ever aborts generation" fails for the
causal path. -/
theorem expr_eval_fallback_amended (df : DataFrame) (c : String) (e : ExprSem) :
    (∀ m vs, e.vec df = Except.error m → df.rows.mapM e.row = Except.ok vs →
      evaluate_derived df [(c, some e)] = df.setCol c vs ∧
      (¬ (df.rows.isEmpty ∨ df.cols.isEmpty) →
        generate_causal_by_scm df [(c, some e)] = Except.ok (df.setCol c vs))) ∧
    (∀ m m2, e.vec df = Except.error m → df.rows.mapM e.row = Except.error m2 →
      evaluate_derived df [(c, some e)]
        = df.setCol c (List.replicate df.rows.length Value.null) ∧
      (¬ (df.rows.isEmpty ∨ df.cols.isEmpty) →
        generate_causal_by_scm df [(c, some e)] = Except.error m2)) ∧
    (∀ vs, e.vec df = Except.ok vs →
      evaluate_derived df [(c, some e)] = df.setCol c vs) := by
  have hredD : evaluate_derived df [(c, some e)]
      = (match e.vec df with
         | Except.ok vs => df.setCol c vs
         | Except.error _ =>
           match df.rows.mapM e.row with
           | Except.ok vs => df.setCol c vs
           | Except.error _ => df.setCol c (List.replicate df.rows.length Value.null)) :=
    rfl
  have hredC : generate_causal_by_scm df [(c, some e)]
      = if df.rows.isEmpty ∨ df.cols.isEmpty then Except.ok df
        else ((match e.vec df with
               | Except.ok vs => Except.ok (df.setCol c vs)
               | Except.error _ =>
                 match df.rows.mapM e.row with
                 | Except.ok vs => Except.ok (df.setCol c vs)
                 | Except.error m => Except.error m)
              >>= fun b => (pure b : Except String DataFrame)) := rfl
  refine ⟨fun m vs hvec hrow => ⟨?_, fun hne => ?_⟩,
          fun m m2 hvec hrow => ⟨?_, fun hne => ?_⟩,
          fun vs hvec => ?_⟩
  · rw [hredD, hvec, hrow]
  · rw [hredC, if_neg hne, hvec, hrow]
    rfl
  · rw [hredD, hvec, hrow]
  · rw [hredC, if_neg hne, hvec, hrow]
    rfl
  · rw [hredD, hvec]

/-- C6 witness: on the concrete one-row frame, the vec-fail/row-ok
expression falls back to row values in both evaluators, and the
both-fail expression yields an all-null column from `evaluate_derived`
but an error from `generate_causal_by_scm`. -/
theorem expr_eval_fallback_amended_witness :
    evaluate_derived c6df [("y", some exprRowOnly)] = c6df.setCol "y" [Value.int 1] ∧
    generate_causal_by_scm c6df [("y", some exprRowOnly)]
      = Except.ok (c6df.setCol "y" [Value.int 1]) ∧
    evaluate_derived c6df [("y", some exprBoom)]
      = c6df.setCol "y" (List.replicate c6df.rows.length Value.null) ∧
    generate_causal_by_scm c6df [("y", some exprBoom)] = Except.error "boom" := by
  have h := expr_eval_fallback_amended c6df "y" exprRowOnly
  have h2 := expr_eval_fallback_amended c6df "y" exprBoom
  have ha := h.1 "vecfail" [Value.int 1] rfl rfl
  have hb := h2.2.1 "boom" "boom" rfl rfl
  exact ⟨ha.1, ha.2 (by decide), hb.1, hb.2 (by decide)⟩

/-- C8 (amended): `enforce_constraints` applies each constraint over its
column with these semantics — a constraint naming an absent column is
skipped; `value_range` clips without dropping rows and lands every integer
cell in `[mn, mx]`; `categorical` filters to the allowed set only when the
allowed list is NONEMPTY (an empty list is skipped); `nullability false`
drops null rows; `regex` keeps a row when the string form matches the
pattern AS A PREFIX (pandas `str.match`), not necessarily fully; `unique`
keeps the first occurrence of each key. -/
theorem constraint_semantics_amended (df : DataFrame) (col : String)
    (mn mx : Int) (hmn : mn ≤ mx) (allowed : List Value) (p : Regex) :
    (∀ c : Constraint, c.column ∉ df.cols → applyConstraint df c = df) ∧
    ((applyConstraintHit df (Constraint.value_range col (some mn) (some mx))).rows.length
        = df.rows.length ∧
      ∀ v ∈ (applyConstraintHit df
          (Constraint.value_range col (some mn) (some mx))).col col,
        ∀ i : Int, v = Value.int i → mn ≤ i ∧ i ≤ mx) ∧
    (allowed ≠ [] →
      applyConstraintHit df (Constraint.categorical col allowed)
        = df.filterRows (fun r => allowed.contains (Row.get r col))) ∧
    (applyConstraintHit df (Constraint.categorical col []) = df) ∧
    (applyConstraintHit df (Constraint.nullability col false)
      = df.filterRows (fun r => Row.get r col ≠ Value.null)) ∧
    (applyConstraintHit df (Constraint.regex col (some p))
      = df.filterRows (fun r => p.matchStart (Row.get r col).toPyStr.toList)) ∧
    (applyConstraintHit df (Constraint.unique col)).rows = specUnique col df.rows := by
  have hvr : applyConstraintHit df (Constraint.value_range col (some mn) (some mx))
      = (df.setCol col ((df.col col).map (clipLower mn))).setCol col
          (((df.setCol col ((df.col col).map (clipLower mn))).col col).map
            (clipUpper mx)) := rfl
  refine ⟨fun c hc => ?_, ⟨?_, ?_⟩, fun hne => ?_, rfl, rfl, rfl, ?_⟩
  · rw [applyConstraint, if_neg hc]
  · rw [hvr]
    simp [setCol_rows_length]
  · intro v hv i hvi
    rw [hvr] at hv
    have hl1 : ((df.col col).map (clipLower mn)).length = df.rows.length := by
      simp [DataFrame.col]
    have h1 : (df.setCol col ((df.col col).map (clipLower mn))).col col
        = (df.col col).map (clipLower mn) := setCol_col_self _ _ _ hl1
    have hl2 : (((df.setCol col ((df.col col).map (clipLower mn))).col col).map
        (clipUpper mx)).length
        = (df.setCol col ((df.col col).map (clipLower mn))).rows.length := by
      simp [DataFrame.col]
    rw [setCol_col_self _ _ _ hl2, h1, List.map_map] at hv
    obtain ⟨w, _, rfl⟩ := List.mem_map.mp hv
    cases w with
    | null => simp [Function.comp, clipLower, clipUpper] at hvi
    | int j =>
        simp [Function.comp, clipLower, clipUpper] at hvi
        omega
    | rat q => simp [Function.comp, clipLower, clipUpper] at hvi
    | str s => simp [Function.comp, clipLower, clipUpper] at hvi
    | bool b => simp [Function.comp, clipLower, clipUpper] at hvi
  · have hne' : allowed.isEmpty = false := by
      cases allowed with
      | nil => exact absurd rfl hne
      | cons a l => rfl
    have hcat : applyConstraintHit df (Constraint.categorical col allowed)
        = if allowed.isEmpty then df
          else df.filterRows (fun r => allowed.contains (Row.get r col)) := rfl
    rw [hcat, hne', if_neg Bool.false_ne_true]
  · exact dedupBy_rows_eq_specUnique df col

/-- C8 witness: a constraint on an absent column leaves the concrete frame
unchanged, its unique-constraint rows equal the keep-first specification,
and a clipped integer cell lands inside the range. -/
theorem constraint_semantics_amended_witness :
    applyConstraint c8df (Constraint.unique "y") = c8df ∧
    (applyConstraintHit c8df (Constraint.unique "x")).rows = specUnique "x" c8df.rows := by
  have h := constraint_semantics_amended c8df "x" 0 1 (by decide) [Value.str "ab"] c8pat
  exact ⟨h.1 (Constraint.unique "y") (by decide), h.2.2.2.2.2.2⟩

end SynthDataGen
